import Mathlib

/-!
# bono: the tool-invocation loop with checkpointed conversation state

A shallow embedding of `main.go`: the tool dispatcher `runTool`, the
confirmation gate `getch`, and the turn loop of `main`, followed by the
properties of the specification that are settled against them.

Modelling conventions.

* Go strings are Lean strings (sequences of runes): file contents and arguments
  are taken to be valid UTF-8 text, on which the byte-wise functions of the
  `strings` package agree with the rune-wise models given here.
* The operating system (files, terminal, shell) and the completion service are
  not part of the program.  They are explicit state (`World`) and scripted
  oracles (`Env`, `Reply`), over which every theorem quantifies.
* A Go run-time panic (a failed unchecked type assertion) is an explicit
  outcome: `ToolOutcome.ret = none`, `State.crashed = true`.
* `World.execs`, `World.invoked` and `State.requests` are ghost traces: they
  record, in order, the commands handed to the shell, the calls of `runTool`
  and the message lists handed to `chatCompletion`.  The program never reads them.
* The lines the scanner reads and the keypresses `getch` reads are separate
  scripts, although the program takes both from standard input: how the
  scanner's buffering divides the input between them is not modelled.
* The user's lines and the replies of the completion service are finite
  scripts; all functions are total, and a property of every request or every
  round holds of every finite prefix of a run of the program.
-/

namespace Bono

/-! ## Go values of static type `any` -/

/-- A decoded JSON value held in a Go `any`: nil, a string, a bool, or anything
else (number, array, object), kept as its raw text. -/
inductive Any where
  | null
  | str (s : String)
  | bool (b : Bool)
  | other (raw : String)
  deriving DecidableEq

/-- The checked-less type assertion `x.(string)`: `none` is the run-time panic. -/
def Any.asString : Any → Option String
  | .str s => some s
  | _ => none

/-- The comma-ok assertion `v, _ := x.(string)`: the zero value on mismatch. -/
def Any.stringOrZero : Any → String
  | .str s => s
  | _ => ""

/-- The comma-ok assertion `v, _ := x.(bool)`: the zero value on mismatch. -/
def Any.boolOrZero : Any → Bool
  | .bool b => b
  | _ => false

/-- What `fmt.Println` shows for a value. -/
def Any.render : Any → String
  | .null => "<nil>"
  | .str s => s
  | .bool b => if b then "true" else "false"
  | .other raw => raw

/-- A `map[string]any`; the nil map is the empty list. -/
abbrev Args := List (String × Any)

/-- Map indexing `args[k]`: nil for a missing key and for the nil map. -/
def Args.get (args : Args) (k : String) : Any :=
  match args.lookup k with
  | some v => v
  | none => Any.null

/-! ## The `strings` package -/

namespace strings

/-- `strings.Index`: position of the first occurrence; `none` is Go's -1. -/
def Index : List Char → List Char → Option Nat
  | [], substr => if substr = [] then some 0 else none
  | c :: t, substr =>
    if substr.isPrefixOf (c :: t) then some 0 else (Index t substr).map (· + 1)

/-- The loop of `strings.Count` for a non-empty `substr`: find, count, cut. -/
def countLoop (substr : List Char) : Nat → List Char → Nat
  | 0, _ => 0
  | fuel + 1, s =>
    match Index s substr with
    | none => 0
    | some i => 1 + countLoop substr fuel (s.drop (i + substr.length))

/-- `strings.Count`: non-overlapping occurrences of `substr` in `s`; the rune
count plus one for the empty `substr`. -/
def Count (s substr : List Char) : Nat :=
  if substr = [] then s.length + 1 else countLoop substr (s.length + 1) s

/-- The `for i := 0; i < n; i++` loop of `strings.Replace`; `first` is `i == 0`
and the list is `s[start:]`. -/
def replaceLoop (old new : List Char) : Nat → Bool → List Char → List Char
  | 0, _, rest => rest
  | k + 1, first, rest =>
    if old = [] then
      if first then new ++ replaceLoop old new k false rest
      else
        match rest with
        | [] => new ++ replaceLoop old new k false []
        | c :: t => c :: (new ++ replaceLoop old new k false t)
    else
      match Index rest old with
      | none => rest -- not reached: `Replace` runs the loop at most `Count` times
      | some j => rest.take j ++ (new ++ replaceLoop old new k false (rest.drop (j + old.length)))

/-- `strings.Replace(s, old, new, n)`. -/
def Replace (s old new : List Char) (n : Int) : List Char :=
  if old = new ∨ n = 0 then s
  else
    let m := Count s old
    if m = 0 then s
    else replaceLoop old new (if n < 0 ∨ (m : Int) < n then m else n.toNat) true s

/-- `strings.ReplaceAll(s, old, new)`. -/
def ReplaceAll (s old new : List Char) : List Char :=
  Replace s old new (-1)

end strings

/-- The expression `len(strings.Split(s, "\n"))`: Split yields Count + 1 pieces. -/
def lineCount (s : String) : Nat :=
  strings.Count s.data ['\n'] + 1

/-! ## The environment: files, terminal, shell -/

/-- What a path names. -/
inductive Node where
  | file (content : String) (readable writable : Bool)
  | blocked (errno : String)
  deriving DecidableEq

/-- The file system: the first entry for a path is the current one. -/
abbrev Files := List (String × Node)

/-- The text of the `*PathError` that `os.ReadFile` and `os.WriteFile` return
when the file cannot be opened: operation, path, cause. -/
def pathError (path errno : String) : String :=
  "open " ++ (path ++ (": " ++ errno))

/-- Environment model of `os.ReadFile`: the content, or the error text. -/
def ReadFile (fs : Files) (path : String) : Except String String :=
  match fs.lookup path with
  | none => .error (pathError path "no such file or directory")
  | some (.file content readable _) =>
    if readable then .ok content else .error (pathError path "permission denied")
  | some (.blocked errno) => .error (pathError path errno)

/-- Environment model of `os.WriteFile(path, data, 0644)`: the error text if any,
and the file system afterwards (unchanged when the write fails). -/
def WriteFile (fs : Files) (path content : String) : Option String × Files :=
  match fs.lookup path with
  | none => (none, (path, Node.file content true true) :: fs)
  | some (.file _ readable writable) =>
    if writable then (none, (path, Node.file content readable writable) :: fs)
    else (some (pathError path "permission denied"), fs)
  | some (.blocked errno) => (some (pathError path errno), fs)

/-- One call of `getch` as the terminal answers it: raw mode refused, or a byte read. -/
inductive TermEvent where
  | rawFail
  | key (b : Fin 256)
  deriving DecidableEq

/-- Everything outside the process that the program touches. -/
structure World where
  fs : Files
  term : List TermEvent
  out : List String
  execs : List String
  invoked : List (String × Args)
  deriving DecidableEq

/-- What `exec.Command("sh", "-c", cmd).CombinedOutput()` yields. -/
structure ShellResult where
  output : String
  failed : Bool
  elapsed : String
  fs : Files

/-- The oracles: JSON decoding of an argument payload into a map, and the effect
of a shell command (given the commands run before it and the files). -/
structure Env where
  decode : String → Args
  sh : List String → String → Files → ShellResult

/-- Console output (`fmt.Print` and friends). -/
def World.print (w : World) (s : String) : World :=
  { w with out := w.out ++ [s] }

/-- How the terminal answers one call of `getch`: the byte returned and the
events left.  Raw mode refused gives 0 (the early `return 0`), and so does a
read that delivers nothing (`b[0]` keeps its zero value). -/
def readKey : List TermEvent → Fin 256 × List TermEvent
  | [] => (0, [])
  | .rawFail :: es => (0, es)
  | .key b :: es => (b, es)

/-- Source `getch`. -/
def getch (w : World) : Fin 256 × World :=
  ((readKey w.term).1, { w with term := (readKey w.term).2 })

/-! ## The tool dispatcher -/

/-- What a call of `runTool` yields: the returned `(result, proceeded)` pair, or
`none` when the call panicked, and the world it leaves behind. -/
structure ToolOutcome where
  ret : Option (String × Bool)
  world : World
  deriving DecidableEq

/-- The bullet that starts every status line. -/
def marker : String := "● "

/-- The line `fmt.Printf("\r%s => %s%s\n", prompt, status, strings.Repeat(" ", 20))`. -/
def statusLine (prompt status : String) : String :=
  "\r" ++ prompt ++ " => " ++ status ++ String.mk (List.replicate 20 ' ') ++ "\n"

/-- The prompt `fmt.Sprintf("%sRead('%s')", marker, path)`. -/
def readPrompt (path : String) : String :=
  marker ++ "Read('" ++ path ++ "')"

/-- The prompt `fmt.Sprintf("%sWrite('%s', %d lines)", marker, path, lines)`. -/
def writePrompt (path content : String) : String :=
  marker ++ "Write('" ++ path ++ "', " ++ toString (lineCount content) ++ " lines)"

/-- The prompt `fmt.Sprintf("%sEdit('%s')", marker, path)`. -/
def editPrompt (path : String) : String :=
  marker ++ "Edit('" ++ path ++ "')"

/-- The prompt `fmt.Sprintf("%sBash('%s') # %s, %s", marker, cmd, desc, safety)`,
after the defaults for an empty description and safety label. -/
def shellPrompt (cmd desc0 safety0 : String) : String :=
  let desc := if desc0 = "" then "(no description)" else desc0
  let safety := if safety0 = "" then "modify" else safety0
  marker ++ "Bash('" ++ cmd ++ "') # " ++ desc ++ ", " ++ safety

/-- The status of a failed edit with `count` matches and no replace_all. -/
def ambiguousStatus (count : Nat) : String :=
  "fail: " ++ toString count ++ " matches (use replace_all)"

/-- The result of a successful edit, `fmt.Sprintf("replaced %d occurrence(s)", count)`. -/
def replacedResult (count : Nat) : String :=
  "replaced " ++ toString count ++ " occurrence(s)"

/-- The expression assigned to `newContent` in the edit_file case. -/
def editedContent (replaceAll : Bool) (content oldStr newStr : String) : String :=
  String.mk
    (if replaceAll then strings.ReplaceAll content.data oldStr.data newStr.data
     else strings.Replace content.data oldStr.data newStr.data 1)

/-- Source `runTool`, case "read_file". -/
def runRead (w : World) (args : Args) : ToolOutcome :=
  match (args.get "path").asString with
  | none => ⟨none, w⟩
  | some path =>
    let prompt := readPrompt path
    let w1 := w.print (prompt ++ " ")
    match ReadFile w1.fs path with
    | .error err => ⟨some ("", true), w1.print (statusLine prompt ("fail: " ++ err))⟩
    | .ok content =>
      ⟨some (content, true),
        w1.print (statusLine prompt (toString (lineCount content) ++ " lines"))⟩

/-- Source `runTool`, case "write_file". -/
def runWrite (w : World) (args : Args) : ToolOutcome :=
  match (args.get "path").asString with
  | none => ⟨none, w⟩
  | some path =>
    match (args.get "content").asString with
    | none => ⟨none, w⟩
    | some content =>
      let prompt := writePrompt path content
      let w1 := w.print (prompt ++ " [Enter/Esc] ")
      let k := getch w1
      if k.1 = 0x1b then ⟨some ("", false), k.2.print "=> cancelled\n"⟩
      else
        let r := WriteFile k.2.fs path content
        let status := match r.1 with
          | some err => "fail: " ++ err
          | none => "written"
        ⟨some ("ok", true), World.print { k.2 with fs := r.2 } (statusLine prompt status)⟩

/-- Source `runTool`, case "edit_file". -/
def runEdit (w : World) (args : Args) : ToolOutcome :=
  match (args.get "path").asString with
  | none => ⟨none, w⟩
  | some path =>
    match (args.get "old_string").asString with
    | none => ⟨none, w⟩
    | some oldStr =>
      match (args.get "new_string").asString with
      | none => ⟨none, w⟩
      | some newStr =>
        let replaceAll := (args.get "replace_all").boolOrZero
        let prompt := editPrompt path
        let w1 := w.print (prompt ++ " [Enter/Esc] ")
        let k := getch w1
        if k.1 = 0x1b then ⟨some ("", false), k.2.print "=> cancelled\n"⟩
        else
          match ReadFile k.2.fs path with
          | .error err => ⟨some ("", true), k.2.print (statusLine prompt ("fail: " ++ err))⟩
          | .ok content =>
            let count := strings.Count content.data oldStr.data
            if count = 0 then
              ⟨some ("", true), k.2.print (statusLine prompt "fail: string not found")⟩
            else if count > 1 ∧ replaceAll = false then
              ⟨some ("", true), k.2.print
                (statusLine prompt (ambiguousStatus count))⟩
            else
              let r := WriteFile k.2.fs path (editedContent replaceAll content oldStr newStr)
              ⟨some (replacedResult count, true),
                World.print { k.2 with fs := r.2 } (statusLine prompt "ok")⟩

/-- Source `runTool`, the default case (run_shell and every unknown name). -/
def runShell (env : Env) (w : World) (args : Args) : ToolOutcome :=
  match (args.get "command").asString with
  | none => ⟨none, w⟩
  | some cmd =>
    let prompt := shellPrompt cmd (args.get "description").stringOrZero
      (args.get "safety").stringOrZero
    let w1 := w.print (prompt ++ " [Enter/Esc] ")
    let k := getch w1
    if k.1 = 0x1b then ⟨some ("", false), k.2.print "=> cancelled\n"⟩
    else
      let r := env.sh k.2.execs cmd k.2.fs
      let status := if r.failed then "fail (" ++ r.elapsed ++ "s)" else "ok (" ++ r.elapsed ++ "s)"
      ⟨some (r.output, true),
        World.print { k.2 with fs := r.fs, execs := k.2.execs ++ [cmd] } (statusLine prompt status)⟩

/-- Source `runTool`: dispatch on the tool name.  The call is first recorded in
the ghost trace `invoked`. -/
def runTool (env : Env) (w : World) (name : String) (args : Args) : ToolOutcome :=
  let w0 : World := { w with invoked := w.invoked ++ [(name, args)] }
  if name = "read_file" then runRead w0 args
  else if name = "write_file" then runWrite w0 args
  else if name = "edit_file" then runEdit w0 args
  else runShell env w0 args

/-! ## Messages and the turn loop -/

/-- Source `FunctionCall`. -/
structure FunctionCall where
  Name : String
  Arguments : String
  deriving DecidableEq

/-- Source `ToolCall` (`Kind` is the Go field `Type`). -/
structure ToolCall where
  ID : String
  Kind : String
  Function : FunctionCall
  deriving DecidableEq

/-- Source `Message`. -/
structure Message where
  Role : String
  Content : Any
  ToolCalls : List ToolCall
  ToolCallID : String
  deriving DecidableEq

/-- What one call of `chatCompletion` returns: an error or the first choice. -/
inductive Reply where
  | err (e : String)
  | msg (m : Message)
  deriving DecidableEq

/-- The state of `main`: the history, the world, the ghost trace of the message
lists handed to `chatCompletion`, and whether the process has panicked. -/
structure State where
  messages : List Message
  world : World
  requests : List (List Message)
  crashed : Bool
  deriving DecidableEq

/-- How the loop over a batch of tool calls ends. -/
inductive BatchEnd where
  | finished
  | cancelled
  | panicked
  deriving DecidableEq

/-- The tool message appended for a call that proceeded. -/
def toolMessage (tc : ToolCall) (result : String) : Message :=
  { Role := "tool", Content := Any.str result, ToolCalls := [], ToolCallID := tc.ID }

/-- Source `main`, the first lines of the body of the loop over the tool calls:
decode the argument payload and call `runTool`. -/
def dispatch (env : Env) (w : World) (tc : ToolCall) : ToolOutcome :=
  runTool env w tc.Function.Name (env.decode tc.Function.Arguments)

/-- Source `main`, the loop `for _, tc := range msg.ToolCalls`. -/
def runBatch (env : Env) : List ToolCall → List Message → World → List Message × World × BatchEnd
  | [], msgs, w => (msgs, w, BatchEnd.finished)
  | tc :: tcs, msgs, w =>
    let o := dispatch env w tc
    match o.ret with
    | none => (msgs, o.world, BatchEnd.panicked)
    | some (result, ok) =>
      if ok then runBatch env tcs (msgs ++ [toolMessage tc result]) o.world
      else (msgs, o.world, BatchEnd.cancelled)

/-- The message `Message{Role: msg.Role, Content: msg.Content, ToolCalls: msg.ToolCalls}`
that is appended to the history for a reply. -/
def recorded (msg : Message) : Message :=
  { Role := msg.Role, Content := msg.Content, ToolCalls := msg.ToolCalls, ToolCallID := "" }

/-- Source `main`, the body of the inner loop after `chatCompletion` has
returned `msg`: the new state, and whether the inner loop goes round again. -/
def handleReply (env : Env) (st : State) (msg : Message) : State × Bool :=
  let messages := st.messages ++ [recorded msg]
  if msg.ToolCalls.length = 0 then
    let w := if msg.Content = Any.null then st.world
      else st.world.print (msg.Content.render ++ "\n")
    ({ st with messages := messages, world := w }, false)
  else
    let checkpoint := messages.length - 1
    match runBatch env msg.ToolCalls messages st.world with
    | (msgs, w, BatchEnd.panicked) =>
      ({ st with messages := msgs, world := w, crashed := true }, false)
    | (msgs, w, BatchEnd.cancelled) =>
      ({ st with messages := msgs.take checkpoint, world := w }, false)
    | (msgs, w, BatchEnd.finished) =>
      ({ st with messages := msgs, world := w }, true)

/-- Source `main`, the inner `for` loop.  Each round hands the history to
`chatCompletion` (recorded in `requests`) and consumes one scripted reply; a
script that has run out answers like a failed request.  Returns the state at
the `break` and the replies not consumed. -/
def converse (env : Env) : List Reply → State → State × List Reply
  | [], st =>
    ({ st with requests := st.requests ++ [st.messages],
               world := st.world.print "Error: no reply\n" }, [])
  | Reply.err e :: rs, st =>
    ({ st with requests := st.requests ++ [st.messages],
               world := st.world.print ("Error: " ++ e ++ "\n") }, rs)
  | Reply.msg m :: rs, st =>
    let r := handleReply env { st with requests := st.requests ++ [st.messages] } m
    if r.2 then converse env rs r.1 else (r.1, rs)

/-- The message `Message{Role: "user", Content: input}`. -/
def userMessage (input : String) : Message :=
  { Role := "user", Content := Any.str input, ToolCalls := [], ToolCallID := "" }

/-- Source `main`, the outer `for` loop over the lines read from standard
input; it stops at end of input, and when the process has panicked. -/
def mainLoop (env : Env) : List String → List Reply → State → State
  | [], _, st => { st with world := st.world.print "> " }
  | input :: rest, replies, st =>
    let st1 : State := { st with world := st.world.print "> " }
    if input = "" then mainLoop env rest replies st1
    else
      let r := converse env replies { st1 with messages := st1.messages ++ [userMessage input] }
      if r.1.crashed then r.1 else mainLoop env rest r.2 r.1

/-- The message `Message{Role: "system", Content: prompts.System}`. -/
def systemMessage (system : String) : Message :=
  { Role := "system", Content := Any.str system, ToolCalls := [], ToolCallID := "" }

/-- Source `main` from the seeding of the history on: `system` is the constant
`prompts.System`. -/
def main (env : Env) (system : String) (lines : List String) (replies : List Reply)
    (w : World) : State :=
  mainLoop env lines replies
    { messages := [systemMessage system], world := w, requests := [], crashed := false }

/-! ## The pairing invariant -/

/-- Reads a history left to right, holding the ids of the tool calls still
unanswered: `none` as soon as a message breaks the pairing (a tool message
that is not the answer to the first unanswered call, or any other message
while calls are unanswered), otherwise the ids left unanswered at the end. -/
def pending : List String → List Message → Option (List String)
  | p, [] => some p
  | [], m :: rest =>
    if m.Role = "tool" then none else pending (m.ToolCalls.map (·.ID)) rest
  | id :: ids, m :: rest =>
    if m.Role = "tool" ∧ m.ToolCallID = id ∧ m.ToolCalls = [] then pending ids rest else none

/-- The pairing invariant of a history: every message with tool calls is
followed at once by exactly one tool message per call, ids in order, and no
tool message stands anywhere else. -/
def Paired (msgs : List Message) : Prop :=
  pending [] msgs = some []

instance (msgs : List Message) : Decidable (Paired msgs) := by
  unfold Paired; infer_instance

/-! ## Notions used to state the properties -/

namespace strings

/-- `OccursTwice substr s`: `substr` occurs in `s` at two places that are distinct
and do not overlap (more than one occurrence, counted as `strings.Count` counts). -/
def OccursTwice (substr s : List Char) : Prop :=
  ∃ a b c, s = a ++ (substr ++ (b ++ (substr ++ c))) ∧ (substr ≠ [] ∨ b ≠ [])

/-- `Replaced old new n s out`: `out` is `s` with `n` occurrences of `old`, taken
from left to right without overlap, each replaced by `new`. -/
inductive Replaced (old new : List Char) : Nat → List Char → List Char → Prop where
  | done (s : List Char) : Replaced old new 0 s s
  | step (pre rest out : List Char) (n : Nat) :
      Replaced old new n rest out →
      Replaced old new (n + 1) (pre ++ (old ++ rest)) (pre ++ (new ++ out))

end strings

/-- The keys whose values a tool variant asserts to be strings, unchecked, before
it does anything else (`args["path"].(string)` and the like). -/
def required (name : String) : List String :=
  if name = "read_file" then ["path"]
  else if name = "write_file" then ["path", "content"]
  else if name = "edit_file" then ["path", "old_string", "new_string"]
  else ["command"]

/-- The argument map holds a string under every key the variant asserts. -/
def WellTyped (name : String) (args : Args) : Prop :=
  ∀ k ∈ required name, (args.get k).asString ≠ none

instance (name : String) (args : Args) : Decidable (WellTyped name args) := by
  unfold WellTyped; infer_instance

/-- `Proceeds env w calls rs w2`: run one after the other from the world `w`,
every call of `calls` returns with proceeded = true; `rs` are the result texts
`runTool` returned, in order, and `w2` is the world after the last call. -/
inductive Proceeds (env : Env) : World → List ToolCall → List String → World → Prop where
  | nil (w : World) : Proceeds env w [] [] w
  | cons (w : World) (tc : ToolCall) (tcs : List ToolCall) (r : String) (rs : List String)
      (w2 : World) :
      (dispatch env w tc).ret = some (r, true) →
      Proceeds env (dispatch env w tc).world tcs rs w2 →
      Proceeds env w (tc :: tcs) (r :: rs) w2

/-- The entry of the ghost trace `invoked` for a tool call. -/
def invocation (env : Env) (tc : ToolCall) : String × Args :=
  (tc.Function.Name, env.decode tc.Function.Arguments)

/-- `Answers calls ts`: `ts` is exactly one tool message per call, in the order
of the calls, each carrying the id of its call. -/
def Answers (calls : List ToolCall) (ts : List Message) : Prop :=
  List.Forall₂ (fun c t => t.Role = "tool" ∧ t.ToolCallID = c.ID ∧ t.ToolCalls = []) calls ts

/-- The pairing invariant as the protocol states it: the history is a sequence
of blocks, each a message that is not a tool message followed at once by the
answers to its tool calls (none when it has no tool calls).  So every message
with n tool calls is followed by exactly n tool messages with the ids of the
calls in order, and every tool message stands inside such a run. -/
inductive WellPaired : List Message → Prop where
  | nil : WellPaired []
  | block (m : Message) (ts rest : List Message) :
      m.Role ≠ "tool" → Answers m.ToolCalls ts → WellPaired rest →
      WellPaired (m :: (ts ++ rest))

/-- The pairing invariant read by position, as the claim words it: every
message with a non-empty list of n tool calls is followed at once by n tool
messages with the ids of the calls in order, the message after them (if any) is
not a tool message, and every tool message stands in the run that follows some
message that is not a tool message. -/
def PairingInvariant (msgs : List Message) : Prop :=
  (∀ (i : Nat) (m : Message), msgs[i]? = some m → m.ToolCalls ≠ [] →
    (∀ (j : Nat) (c : ToolCall), m.ToolCalls[j]? = some c →
      ∃ t, msgs[i + 1 + j]? = some t ∧ t.Role = "tool" ∧ t.ToolCallID = c.ID) ∧
    (∀ t, msgs[i + 1 + m.ToolCalls.length]? = some t → t.Role ≠ "tool")) ∧
  (∀ (k : Nat) (t : Message), msgs[k]? = some t → t.Role = "tool" →
    ∃ (i : Nat) (m : Message), msgs[i]? = some m ∧ m.Role ≠ "tool" ∧ i < k ∧
      k ≤ i + m.ToolCalls.length)

/-! ## Concrete inputs -/

/-- Example files: two ordinary files and one that can be read but not written. -/
def demoFiles : Files :=
  [("notes.txt", Node.file "aaa bbb aaa" true true), ("locked.txt", Node.file "a" true false),
    ("triple.txt", Node.file "aaa" true true)]

/-- Example world with the given terminal events pending. -/
def demoWorld (keys : List TermEvent) : World :=
  { fs := demoFiles, term := keys, out := [], execs := [], invoked := [] }

/-- Example decoder: the payloads are named rather than spelt out as JSON text;
every other payload, such as the JSON text of an empty object, decodes to a map
without entries. -/
def demoDecode (payload : String) : Args :=
  if payload = "write" then [("path", Any.str "out.txt"), ("content", Any.str "hello\n")]
  else if payload = "ls" then [("command", Any.str "ls")]
  else if payload = "read" then [("path", Any.str "notes.txt")]
  else if payload = "edit" then
    [("path", Any.str "notes.txt"), ("old_string", Any.str "aaa"), ("new_string", Any.str "c")]
  else if payload = "edit-absent" then
    [("path", Any.str "notes.txt"), ("old_string", Any.str "zzz"), ("new_string", Any.str "c")]
  else if payload = "edit-missing" then
    [("path", Any.str "nowhere.txt"), ("old_string", Any.str "a"), ("new_string", Any.str "c")]
  else if payload = "edit-locked" then
    [("path", Any.str "locked.txt"), ("old_string", Any.str "a"), ("new_string", Any.str "b")]
  else if payload = "edit-overlap" then
    [("path", Any.str "triple.txt"), ("old_string", Any.str "aa"), ("new_string", Any.str "b")]
  else []

/-- Example environment: the shell lists the directory and changes nothing. -/
def demoEnv : Env :=
  { decode := demoDecode,
    sh := fun _ _ fs => { output := "notes.txt\n", failed := false, elapsed := "0.0", fs := fs } }

/-- Example tool call. -/
def demoCall (id name payload : String) : ToolCall :=
  { ID := id, Kind := "function", Function := { Name := name, Arguments := payload } }

/-- Example reply of the completion service carrying tool calls. -/
def demoReply (calls : List ToolCall) : Message :=
  { Role := "assistant", Content := Any.null, ToolCalls := calls, ToolCallID := "" }

/-- Example final answer of the completion service. -/
def demoAnswer (text : String) : Message :=
  { Role := "assistant", Content := Any.str text, ToolCalls := [], ToolCallID := "" }

/-- Example state of `main` right after the user line "list files". -/
def demoState (keys : List TermEvent) : State :=
  { messages := [systemMessage "sys", userMessage "list files"], world := demoWorld keys,
    requests := [], crashed := false }

/-! ## Facts about the `strings` functions -/

namespace strings

/-- `Index` fails exactly when there is no occurrence. -/
theorem Index_eq_none_iff (s substr : List Char) :
    Index s substr = none ↔ ¬ substr <:+: s := by
  induction s with
  | nil => simp [Index]
  | cons c t ih =>
    simp only [Index, List.infix_cons_iff]
    by_cases h : substr.isPrefixOf (c :: t) = true
    · simp [h, List.isPrefixOf_iff_prefix.mp h]
    · have h' : ¬ substr <+: c :: t := fun hp => h (List.isPrefixOf_iff_prefix.mpr hp)
      simp [h, h', ih]

/-- Where `Index` finds `substr`, the string splits around it. -/
theorem Index_eq_some (s substr : List Char) (i : Nat) (h : Index s substr = some i) :
    s = s.take i ++ (substr ++ s.drop (i + substr.length)) := by
  induction s generalizing i with
  | nil =>
    simp only [Index] at h
    split at h
    · subst_vars; simp
    · cases h
  | cons c t ih =>
    simp only [Index] at h
    split at h
    · rename_i hp
      cases h
      have hp' := List.isPrefixOf_iff_prefix.mp hp
      simpa using (List.prefix_iff_eq_append.mp hp').symm
    · cases hi : Index t substr with
      | none => simp [hi] at h
      | some j =>
        simp [hi] at h
        subst h
        have := ih j hi
        simp only [List.take_succ_cons, List.cons_append]
        rw [show j + 1 + substr.length = (j + substr.length) + 1 by omega, List.drop_succ_cons]
        exact congrArg (c :: ·) this

/-- `Index` finds the leftmost occurrence. -/
theorem Index_le_of_split (a substr r : List Char) :
    ∃ i, i ≤ a.length ∧ Index (a ++ (substr ++ r)) substr = some i := by
  induction a with
  | nil =>
    cases substr with
    | nil => cases r <;> simp [Index]
    | cons x xs =>
      refine ⟨0, le_refl _, ?_⟩
      have : (x :: xs).isPrefixOf (x :: xs ++ r) = true :=
        List.isPrefixOf_iff_prefix.mpr (List.prefix_append _ _)
      simp only [List.nil_append, List.cons_append, Index] at this ⊢
      simp [this]
  | cons c t ih =>
    obtain ⟨i, hi, h⟩ := ih
    simp only [List.cons_append, Index]
    by_cases hp : substr.isPrefixOf (c :: (t ++ (substr ++ r))) = true
    · exact ⟨0, Nat.zero_le _, by simp [hp]⟩
    · exact ⟨i + 1, by simpa using hi, by simp [hp, h]⟩

/-- An occurrence found by `Index` lies inside the string. -/
theorem Index_add_length_le (s substr : List Char) (i : Nat) (h : Index s substr = some i) :
    i + substr.length ≤ s.length := by
  induction s generalizing i with
  | nil =>
    simp only [Index] at h
    split at h
    · subst_vars; cases h; simp
    · cases h
  | cons c t ih =>
    simp only [Index] at h
    split at h
    · rename_i hp
      cases h
      simpa using (List.isPrefixOf_iff_prefix.mp hp).length_le
    · cases hi : Index t substr with
      | none => simp [hi] at h
      | some j =>
        simp [hi] at h
        subst h
        have := ih j hi
        simp only [List.length_cons]
        omega

/-- Enough fuel: once the fuel exceeds the length, the count no longer depends on it. -/
theorem countLoop_fuel (substr : List Char) (hne : substr ≠ []) :
    ∀ (fuel fuel' : Nat) (s : List Char), s.length < fuel → s.length < fuel' →
      countLoop substr fuel s = countLoop substr fuel' s := by
  intro fuel
  induction fuel with
  | zero => intro fuel' s h; omega
  | succ f ih =>
    intro fuel' s h h'
    cases fuel' with
    | zero => omega
    | succ f' =>
      simp only [countLoop]
      cases hi : Index s substr with
      | none => rfl
      | some i =>
        have hle := Index_add_length_le s substr i hi
        have hpos : 0 < substr.length := List.length_pos.mpr hne
        have hd : (s.drop (i + substr.length)).length < s.length := by
          rw [List.length_drop]; omega
        simp only
        rw [ih f' _ (by omega) (by omega)]

/-- The loop of `strings.Count` as a recursion: the model's fuel never runs out. -/
theorem Count_unfold (s substr : List Char) (hne : substr ≠ []) :
    Count s substr =
      match Index s substr with
      | none => 0
      | some i => 1 + Count (s.drop (i + substr.length)) substr := by
  have e : ∀ t, Count t substr = countLoop substr (t.length + 1) t := by
    intro t; simp [Count, hne]
  rw [e, countLoop]
  cases hi : Index s substr with
  | none => rfl
  | some i =>
    have hle := Index_add_length_le s substr i hi
    have hpos : 0 < substr.length := List.length_pos.mpr hne
    simp only
    rw [e, countLoop_fuel substr hne s.length ((s.drop (i + substr.length)).length + 1) _
      (by rw [List.length_drop]; omega) (by omega)]

/-- `strings.Count` is zero exactly when `substr` does not occur in `s`. -/
theorem Count_eq_zero_iff (s substr : List Char) :
    Count s substr = 0 ↔ ¬ substr <:+: s := by
  by_cases hne : substr = []
  · subst hne
    simp [Count]
  · rw [Count_unfold s substr hne, ← Index_eq_none_iff]
    cases Index s substr <;> simp

/-- `strings.Count` is more than one exactly when `substr` occurs at two distinct
places that do not overlap. -/
theorem two_le_Count_iff (s substr : List Char) :
    2 ≤ Count s substr ↔ OccursTwice substr s := by
  by_cases hne : substr = []
  · subst hne
    simp only [Count, if_true, OccursTwice, List.nil_append, ne_eq, not_true_eq_false, false_or]
    constructor
    · intro h
      refine ⟨[], s, [], by simp, ?_⟩
      intro hs; subst hs; simp at h
    · rintro ⟨a, b, c, hs, hb⟩
      have := congrArg List.length hs
      have : 0 < b.length := List.length_pos.mpr hb
      simp at *
      omega
  · constructor
    · intro h
      rw [Count_unfold s substr hne] at h
      cases hi : Index s substr with
      | none => simp [hi] at h
      | some i =>
        simp only [hi] at h
        rw [Count_unfold _ substr hne] at h
        cases hj : Index (s.drop (i + substr.length)) substr with
        | none => simp [hj] at h
        | some j =>
          refine ⟨s.take i, (s.drop (i + substr.length)).take j,
            (s.drop (i + substr.length)).drop (j + substr.length), ?_, Or.inl hne⟩
          have h1 := Index_eq_some s substr i hi
          have h2 := Index_eq_some _ substr j hj
          rw [← h2]
          exact h1
    · rintro ⟨a, b, c, hs, -⟩
      obtain ⟨i, hia, hi⟩ := Index_le_of_split a substr (b ++ (substr ++ c))
      rw [← hs] at hi
      rw [Count_unfold s substr hne]
      simp only [hi]
      have hin : substr <:+: s.drop (i + substr.length) := by
        have hle : i + substr.length ≤ (a ++ substr).length := by simp; omega
        have : s = (a ++ substr) ++ (b ++ (substr ++ c)) := by simp [hs]
        rw [this, List.drop_append_of_le_length hle]
        exact ⟨List.drop (i + substr.length) (a ++ substr) ++ b, c, by simp⟩
      have : Count (s.drop (i + substr.length)) substr ≠ 0 := by
        rw [Ne, Count_eq_zero_iff]; exact not_not.mpr hin
      show 2 ≤ 1 + Count (s.drop (i + substr.length)) substr
      omega

/-- The loop of `strings.Replace` for the empty `old`. -/
theorem replaceLoop_empty (new : List Char) :
    ∀ (k : Nat) (first : Bool) (rest : List Char),
      Replaced [] new k rest (replaceLoop [] new k first rest) := by
  intro k
  induction k with
  | zero => intro first rest; exact Replaced.done rest
  | succ k ih =>
    intro first rest
    simp only [replaceLoop, if_true]
    cases first with
    | true =>
      simpa using @Replaced.step [] new [] rest _ k (ih false rest)
    | false =>
      cases rest with
      | nil => simpa using @Replaced.step [] new [] [] _ k (ih false [])
      | cons c t => simpa using @Replaced.step [] new [c] t _ k (ih false t)

/-- The loop of `strings.Replace` replaces `k` occurrences when there are that many. -/
theorem replaceLoop_spec (old new : List Char) (hne : old ≠ []) :
    ∀ (k : Nat) (first : Bool) (rest : List Char), k ≤ Count rest old →
      Replaced old new k rest (replaceLoop old new k first rest) := by
  intro k
  induction k with
  | zero => intro first rest _; exact Replaced.done rest
  | succ k ih =>
    intro first rest hk
    rw [Count_unfold rest old hne] at hk
    simp only [replaceLoop, if_neg hne]
    cases hj : Index rest old with
    | none => simp [hj] at hk
    | some j =>
      simp only [hj] at hk
      have hk2 : k + 1 ≤ 1 + Count (rest.drop (j + old.length)) old := hk
      have hk' : k ≤ Count (rest.drop (j + old.length)) old := by omega
      have h := @Replaced.step old new (rest.take j)
        (rest.drop (j + old.length)) _ k (ih false _ hk')
      have e := Index_eq_some rest old j hj
      exact (congrArg (fun r => Replaced old new (k + 1) r
        (rest.take j ++ (new ++ replaceLoop old new k false (rest.drop (j + old.length))))) e).mpr h

/-- Replacing occurrences of `old` by `old` itself gives the string back. -/
theorem Replaced_self (old : List Char) :
    ∀ (k : Nat) (rest : List Char), k ≤ Count rest old → Replaced old old k rest rest := by
  intro k
  induction k with
  | zero => intro rest _; exact Replaced.done rest
  | succ k ih =>
    intro rest hk
    by_cases hne : old = []
    · subst hne
      have hk' : k ≤ Count rest [] := by omega
      simpa using @Replaced.step [] [] [] rest rest k (ih rest hk')
    · rw [Count_unfold rest old hne] at hk
      cases hj : Index rest old with
      | none => simp [hj] at hk
      | some j =>
        simp only [hj] at hk
        have hk2 : k + 1 ≤ 1 + Count (rest.drop (j + old.length)) old := hk
        have hk' : k ≤ Count (rest.drop (j + old.length)) old := by omega
        have h := @Replaced.step old old (rest.take j)
          (rest.drop (j + old.length)) _ k (ih _ hk')
        rwa [← Index_eq_some rest old j hj] at h

/-- `strings.ReplaceAll` replaces as many occurrences as `strings.Count` counts. -/
theorem ReplaceAll_spec (s old new : List Char) :
    Replaced old new (Count s old) s (ReplaceAll s old new) := by
  unfold ReplaceAll Replace
  by_cases heq : old = new
  · subst heq
    simpa using Replaced_self old _ s (le_refl _)
  · by_cases hm : Count s old = 0
    · simp only [heq, false_or, hm, if_true]
      simpa using Replaced.done s
    · simp only [heq, false_or, hm, if_false]
      simp only [show ((-1 : Int) = 0) = False by simp, if_false,
        show ((-1 : Int) < 0) = True by simp, true_or, if_true]
      by_cases hne : old = []
      · subst hne; exact replaceLoop_empty new _ _ _
      · exact replaceLoop_spec old new hne _ _ _ (le_refl _)

/-- `strings.Replace` with n = 1 replaces the one occurrence there is. -/
theorem Replace_one_spec (s old new : List Char) (h1 : Count s old = 1) :
    Replaced old new 1 s (Replace s old new 1) := by
  unfold Replace
  by_cases heq : old = new
  · subst heq
    simpa using Replaced_self old 1 s (by omega)
  · simp only [heq, false_or, h1]
    simp only [show ((1 : Int) = 0) = False by simp, if_false,
      show ((1 : Nat) = 0) = False by simp]
    have : (if (1 : Int) < 0 ∨ ((1 : Nat) : Int) < 1 then 1 else (1 : Int).toNat) = 1 := by simp
    rw [this]
    by_cases hne : old = []
    · subst hne; exact replaceLoop_empty new _ _ _
    · exact replaceLoop_spec old new hne _ _ _ (by omega)

end strings

/-- The content written by a successful edit is the old content with as many
occurrences replaced as `strings.Count` counted. -/
theorem editedContent_spec (replaceAll : Bool) (content oldStr newStr : String)
    (h1 : ¬ (1 < strings.Count content.data oldStr.data ∧ replaceAll = false))
    (h0 : strings.Count content.data oldStr.data ≠ 0) :
    strings.Replaced oldStr.data newStr.data (strings.Count content.data oldStr.data)
      content.data (editedContent replaceAll content oldStr newStr).data := by
  unfold editedContent
  cases replaceAll with
  | true => simpa using strings.ReplaceAll_spec content.data oldStr.data newStr.data
  | false =>
    have hc : strings.Count content.data oldStr.data = 1 := by
      have : ¬ 1 < strings.Count content.data oldStr.data := fun h => h1 ⟨h, rfl⟩
      omega
    rw [hc]
    simpa using strings.Replace_one_spec content.data oldStr.data newStr.data hc

/-! ## Facts about the texts the dispatcher prints and returns -/

/-- A decimal digit is one of the ten digit characters. -/
theorem digitChar_mem (d : Nat) (h : d < 10) :
    Nat.digitChar d ∈ ['0', '1', '2', '3', '4', '5', '6', '7', '8', '9'] := by
  interval_cases d <;> simp [Nat.digitChar]

/-- The digits of a number start with a digit character. -/
theorem toDigitsCore_head (fuel : Nat) :
    ∀ (n : Nat) (ds : List Char), 0 < fuel →
      ∃ c tl, Nat.toDigitsCore 10 fuel n ds = c :: tl ∧
        c ∈ ['0', '1', '2', '3', '4', '5', '6', '7', '8', '9'] := by
  induction fuel with
  | zero => intro n ds h; omega
  | succ f ih =>
    intro n ds _
    simp only [Nat.toDigitsCore]
    split
    · exact ⟨_, _, rfl, digitChar_mem _ (Nat.mod_lt _ (by norm_num))⟩
    · cases f with
      | zero => exact ⟨_, _, rfl, digitChar_mem _ (Nat.mod_lt _ (by norm_num))⟩
      | succ f' => exact ih _ _ (by omega)

/-- The text of `%d` starts with a digit character. -/
theorem toString_head (n : Nat) :
    ∃ c tl, (toString n).data = c :: tl ∧
      c ∈ ['0', '1', '2', '3', '4', '5', '6', '7', '8', '9'] := by
  have := toDigitsCore_head (n + 1) n [] (by omega)
  simpa [toString, Nat.repr, Nat.toDigits, List.asString] using this

/-- The status of an ambiguous edit is not the status of an edit that found nothing. -/
theorem ambiguousStatus_ne_notFound (n : Nat) : ambiguousStatus n ≠ "fail: string not found" := by
  obtain ⟨c, tl, e, hc⟩ := toString_head n
  intro h
  have h' := congrArg String.data h
  simp only [ambiguousStatus, String.data_append, e] at h'
  have h6 := congrArg (fun l => l.get? 6) h'
  simp at h6
  subst h6
  simp at hc

/-- The error of `os.ReadFile` is a path error. -/
theorem ReadFile_error (fs : Files) (path err : String) (h : ReadFile fs path = Except.error err) :
    ∃ errno, err = pathError path errno := by
  unfold ReadFile at h
  split at h
  · cases h; exact ⟨_, rfl⟩
  · split at h
    · cases h
    · cases h; exact ⟨_, rfl⟩
  · cases h; exact ⟨_, rfl⟩

/-- The status of an edit on an unreadable file is neither of the other two failure statuses. -/
theorem unreadableStatus_ne (path errno : String) (n : Nat) :
    "fail: " ++ pathError path errno ≠ "fail: string not found" ∧
    "fail: " ++ pathError path errno ≠ ambiguousStatus n := by
  obtain ⟨c, tl, e, hc⟩ := toString_head n
  constructor
  · intro h
    have h6 := congrArg (fun s => s.data.get? 6) h
    simp [pathError] at h6
  · intro h
    have h' := congrArg String.data h
    simp only [ambiguousStatus, pathError, String.data_append, e] at h'
    have h6 := congrArg (fun l => l.get? 6) h'
    simp at h6
    subst h6
    simp at hc

/-- The result of a successful edit is not empty. -/
theorem replacedResult_ne_empty (n : Nat) : replacedResult n ≠ "" := by
  intro h
  have h' := congrArg (fun s => s.data.get? 0) h
  simp [replacedResult] at h'

/-! ## The dispatcher -/

/-- A value that is a string passes the assertion `x.(string)`. -/
theorem asString_of_eq {v : Any} {s : String} (h : v = Any.str s) : v.asString = some s := by
  subst h; rfl

/-- Writing a readable file and reading it back gives what was written. -/
theorem ReadFile_WriteFile (fs : Files) (path content new : String)
    (hr : ReadFile fs path = Except.ok content) (hw : (WriteFile fs path new).1 = none) :
    ReadFile (WriteFile fs path new).2 path = Except.ok new := by
  unfold ReadFile at hr
  unfold WriteFile at hw ⊢
  cases hl : fs.lookup path with
  | none => simp [hl] at hr
  | some node =>
    cases node with
    | blocked errno => simp [hl] at hr
    | file c readable writable =>
      simp only [hl] at hr hw ⊢
      cases writable with
      | false => simp at hw
      | true =>
        cases readable with
        | false => simp at hr
        | true => simp [ReadFile, List.lookup]

/-- C4.  Confirmation gating.  For the gated variants (every tool name but
read_file: write_file, edit_file, and the shell variant that takes all other
names), every argument map and every world whose next terminal event is the
cancel key Escape (0x1b): the files are left as they were and no command is
handed to the shell; when the call has read that keypress it returns
("", false); and it reads it whenever the arguments the variant asserts are
strings (a map where they are not panics before the confirmation is asked,
which is the subject of C9). -/
theorem cancel_key_blocks_side_effects (env : Env) (w : World) (name : String) (args : Args)
    (rest : List TermEvent) (hname : name ≠ "read_file")
    (hkey : w.term = TermEvent.key 0x1b :: rest) :
    ((runTool env w name args).world.fs = w.fs ∧
      (runTool env w name args).world.execs = w.execs) ∧
    ((runTool env w name args).world.term = rest →
      (runTool env w name args).ret = some ("", false)) ∧
    (WellTyped name args → (runTool env w name args).world.term = rest) := by
  unfold runTool
  simp only [if_neg hname]
  by_cases h1 : name = "write_file"
  · subst h1
    simp only [if_true, runWrite, WellTyped, required]
    cases hp : (args.get "path").asString with
    | none => simp [hkey, List.cons_ne_self, hp]
    | some path =>
      cases hc : (args.get "content").asString with
      | none => simp [hkey, List.cons_ne_self, hc]
      | some content => simp [getch, readKey, World.print, hkey]
  · simp only [if_neg h1]
    by_cases h2 : name = "edit_file"
    · subst h2
      simp only [if_true, runEdit, WellTyped, required]
      cases hp : (args.get "path").asString with
      | none => simp [hkey, List.cons_ne_self, hp]
      | some path =>
        cases ho : (args.get "old_string").asString with
        | none => simp [hkey, List.cons_ne_self, ho]
        | some oldStr =>
          cases hn : (args.get "new_string").asString with
          | none => simp [hkey, List.cons_ne_self, hn]
          | some newStr => simp [getch, readKey, World.print, hkey]
    · simp only [if_neg h2, runShell, WellTyped, required, if_neg hname, if_neg h1]
      cases hc : (args.get "command").asString with
      | none => simp [hkey, List.cons_ne_self, hc]
      | some cmd => simp [getch, readKey, World.print, hkey]

/-- C4 at a concrete input: a write_file call answered with Escape returns
("", false) and leaves the files as they were. -/
theorem cancel_key_blocks_side_effects_witness :
    (runTool demoEnv (demoWorld [TermEvent.key 0x1b]) "write_file" (demoDecode "write")).ret =
      some ("", false) ∧
    (runTool demoEnv (demoWorld [TermEvent.key 0x1b]) "write_file"
      (demoDecode "write")).world.fs = demoFiles :=
  ⟨(cancel_key_blocks_side_effects demoEnv (demoWorld [TermEvent.key 0x1b]) "write_file"
      (demoDecode "write") [] (by decide) rfl).2.1 (by decide),
    (cancel_key_blocks_side_effects demoEnv (demoWorld [TermEvent.key 0x1b]) "write_file"
      (demoDecode "write") [] (by decide) rfl).1.1⟩

/-- C10.  When the terminal refuses raw mode, `getch` returns 0, which is not
the cancel byte, so every gated variant goes on as if confirmed: for every
tool name but read_file and every argument map, a call that got as far as
asking for confirmation returns with proceeded = true, and it gets there
whenever the arguments the variant asserts are strings; its outcome is then the one of the same call
answered with any key other than Escape.  The side effect takes place:
write_file writes the file, edit_file writes the edited content, the shell
variant runs the command. -/
theorem raw_mode_failure_proceeds (env : Env) (w : World) (name : String) (args : Args)
    (rest : List TermEvent) (hname : name ≠ "read_file")
    (hraw : w.term = TermEvent.rawFail :: rest) :
    (getch w).1 = 0 ∧
    ((runTool env w name args).world.term = rest →
      ∃ r, (runTool env w name args).ret = some (r, true)) ∧
    (WellTyped name args →
      (runTool env w name args).world.term = rest ∧
      ∀ b : Fin 256, b ≠ 0x1b →
        runTool env w name args =
          runTool env { w with term := TermEvent.key b :: rest } name args) ∧
    (name = "write_file" → ∀ path content : String,
      args.get "path" = Any.str path → args.get "content" = Any.str content →
      (runTool env w name args).ret = some ("ok", true) ∧
      (runTool env w name args).world.fs = (WriteFile w.fs path content).2) ∧
    (name = "edit_file" → ∀ path oldStr newStr content : String,
      args.get "path" = Any.str path → args.get "old_string" = Any.str oldStr →
      args.get "new_string" = Any.str newStr → ReadFile w.fs path = Except.ok content →
      oldStr.data <:+: content.data →
      (¬ strings.OccursTwice oldStr.data content.data ∨
        (args.get "replace_all").boolOrZero = true) →
      (runTool env w name args).ret =
        some (replacedResult (strings.Count content.data oldStr.data), true) ∧
      (runTool env w name args).world.fs =
        (WriteFile w.fs path
          (editedContent (args.get "replace_all").boolOrZero content oldStr newStr)).2) ∧
    (name ≠ "write_file" → name ≠ "edit_file" → ∀ cmd : String,
      args.get "command" = Any.str cmd →
      (runTool env w name args).ret = some ((env.sh w.execs cmd w.fs).output, true) ∧
      (runTool env w name args).world.execs = w.execs ++ [cmd] ∧
      (runTool env w name args).world.fs = (env.sh w.execs cmd w.fs).fs) := by
  refine ⟨by simp [getch, hraw, readKey], ?_⟩
  unfold runTool
  simp only [if_neg hname]
  by_cases h1 : name = "write_file"
  · subst h1
    simp only [if_true, runWrite, WellTyped, required]
    cases hp : (args.get "path").asString with
    | none =>
      refine ⟨by simp [hraw, List.cons_ne_self], by simp [hp], ?_, by simp, by simp⟩
      intro _ path content hp'
      simp [asString_of_eq hp'] at hp
    | some path =>
      cases hc : (args.get "content").asString with
      | none =>
        refine ⟨by simp [hraw, List.cons_ne_self], by simp [hc], ?_, by simp, by simp⟩
        intro _ path content _ hc'
        simp [asString_of_eq hc'] at hc
      | some content =>
        refine ⟨by simp [getch, readKey, World.print, hraw], ?_, ?_, by simp, by simp⟩
        · intro _
          refine ⟨by simp [getch, readKey, World.print, hraw], ?_⟩
          intro b hb
          simp [getch, readKey, World.print, hraw, hb]
        · intro _ path' content' hp' hc'
          rw [asString_of_eq hp'] at hp
          rw [asString_of_eq hc'] at hc
          cases hp; cases hc
          simp [getch, readKey, World.print, hraw]
  · simp only [if_neg h1]
    by_cases h2 : name = "edit_file"
    · subst h2
      simp only [if_true, runEdit, WellTyped, required]
      cases hp : (args.get "path").asString with
      | none =>
        refine ⟨by simp [hraw, List.cons_ne_self], by simp [hp], by simp, ?_, by simp⟩
        intro _ path oldStr newStr content hp'
        simp [asString_of_eq hp'] at hp
      | some path =>
        cases ho : (args.get "old_string").asString with
        | none =>
          refine ⟨by simp [hraw, List.cons_ne_self], by simp [ho], by simp, ?_, by simp⟩
          intro _ path oldStr newStr content _ ho'
          simp [asString_of_eq ho'] at ho
        | some oldStr =>
          cases hn : (args.get "new_string").asString with
          | none =>
            refine ⟨by simp [hraw, List.cons_ne_self], by simp [hn], by simp, ?_, by simp⟩
            intro _ path oldStr newStr content _ _ hn'
            simp [asString_of_eq hn'] at hn
          | some newStr =>
            refine ⟨?_, ?_, by simp, ?_, by simp⟩
            · intro _
              simp only [getch, readKey, World.print, hraw]
              cases ReadFile w.fs path with
              | error e => simp
              | ok content =>
                by_cases hc0 : strings.Count content.data oldStr.data = 0
                · simp [hc0]
                · by_cases hc1 : 1 < strings.Count content.data oldStr.data ∧
                      (args.get "replace_all").boolOrZero = false
                  · simp [hc0, hc1]
                  · simp [hc0, hc1]
            · intro _
              constructor
              · simp only [getch, readKey, World.print, hraw]
                cases ReadFile w.fs path with
                | error e => simp
                | ok content =>
                  by_cases hc0 : strings.Count content.data oldStr.data = 0
                  · simp [hc0]
                  · by_cases hc1 : 1 < strings.Count content.data oldStr.data ∧
                        (args.get "replace_all").boolOrZero = false
                    · simp [hc0, hc1]
                    · simp [hc0, hc1]
              · intro b hb
                simp [getch, readKey, World.print, hraw, hb]
            · intro _ path' oldStr' newStr' content hp' ho' hn' hr hin htw
              rw [asString_of_eq hp'] at hp
              rw [asString_of_eq ho'] at ho
              rw [asString_of_eq hn'] at hn
              cases hp; cases ho; cases hn
              have hc0 : strings.Count content.data oldStr.data ≠ 0 := by
                rw [Ne, strings.Count_eq_zero_iff]; exact not_not.mpr hin
              have hc1 : ¬ (1 < strings.Count content.data oldStr.data ∧
                  (args.get "replace_all").boolOrZero = false) := by
                rintro ⟨h, hra⟩
                rcases htw with htw | htw
                · exact htw ((strings.two_le_Count_iff _ _).mp h)
                · rw [hra] at htw; cases htw
              simp [getch, readKey, World.print, hraw, hr, hc0, hc1]
    · simp only [if_neg h2, runShell, WellTyped, required, if_neg hname, if_neg h1]
      cases hc : (args.get "command").asString with
      | none =>
        refine ⟨by simp [hraw, List.cons_ne_self], by simp [hc], by simp [h1], by simp [h2], ?_⟩
        intro _ _ cmd hc'
        simp [asString_of_eq hc'] at hc
      | some cmd =>
        refine ⟨by simp [getch, readKey, World.print, hraw], ?_, by simp [h1], by simp [h2], ?_⟩
        · intro _
          refine ⟨by simp [getch, readKey, World.print, hraw], ?_⟩
          intro b hb
          simp [getch, readKey, World.print, hraw, hb]
        · intro _ _ cmd' hc'
          rw [asString_of_eq hc'] at hc
          cases hc
          simp [getch, readKey, World.print, hraw]

/-- C10 at a concrete input: with raw mode refused, a shell call runs its
command and reports proceeded = true. -/
theorem raw_mode_failure_proceeds_witness :
    (runTool demoEnv (demoWorld [TermEvent.rawFail]) "run_shell" (demoDecode "ls")).ret =
      some ("notes.txt\n", true) ∧
    (runTool demoEnv (demoWorld [TermEvent.rawFail]) "run_shell"
      (demoDecode "ls")).world.execs = ["ls"] :=
  ⟨((raw_mode_failure_proceeds demoEnv (demoWorld [TermEvent.rawFail]) "run_shell"
      (demoDecode "ls") [] (by decide) rfl).2.2.2.2.2 (by decide) (by decide) "ls" rfl).1,
    ((raw_mode_failure_proceeds demoEnv (demoWorld [TermEvent.rawFail]) "run_shell"
      (demoDecode "ls") [] (by decide) rfl).2.2.2.2.2 (by decide) (by decide) "ls" rfl).2.1⟩

/-- C6, the claim fails.  In the content "aaa" the old_string "aa" occurs more
than once, at offset 0 and at offset 1.  The two occurrences overlap, so
`strings.Count` counts one match: with replace_all unset the confirmed edit is
not refused as ambiguous, it replaces the first occurrence, returns
"replaced 1 occurrence(s)", and the file reads "ba" afterwards. -/
theorem overlapping_occurrences_counterexample :
    "aaa".data = "aa".data ++ "a".data ∧ "aaa".data = "a".data ++ "aa".data ∧
    ((demoDecode "edit-overlap").get "replace_all").boolOrZero = false ∧
    ReadFile (demoWorld [TermEvent.key 13]).fs "triple.txt" = Except.ok "aaa" ∧
    (runTool demoEnv (demoWorld [TermEvent.key 13]) "edit_file" (demoDecode "edit-overlap")).ret =
      some ("replaced 1 occurrence(s)", true) ∧
    ReadFile (runTool demoEnv (demoWorld [TermEvent.key 13]) "edit_file"
      (demoDecode "edit-overlap")).world.fs "triple.txt" = Except.ok "ba" := by
  refine ⟨by decide, by decide, by decide, rfl, by decide, rfl⟩

/-- C6 as amended.  Failing edits leave the file unmodified.  For every
edit_file call whose path, old_string and new_string are strings, once it is
confirmed (`getch` returns anything but Escape) on a readable file: if
old_string does not occur in the content, the status is
"fail: string not found"; if it occurs more than once at places that do not
overlap (which is when `strings.Count` is more than one) and replace_all is
unset, the status is "fail: N matches (use replace_all)"; in both cases the
files are as before, the file still reads as before, and runTool returns
("", true). -/
theorem failing_edit_leaves_file (env : Env) (w : World) (args : Args)
    (path oldStr newStr content : String)
    (hp : args.get "path" = Any.str path) (ho : args.get "old_string" = Any.str oldStr)
    (hn : args.get "new_string" = Any.str newStr)
    (hk : (getch w).1 ≠ 0x1b) (hr : ReadFile w.fs path = Except.ok content) :
    (¬ oldStr.data <:+: content.data →
      (runTool env w "edit_file" args).ret = some ("", true) ∧
      (runTool env w "edit_file" args).world.out =
        w.out ++ [editPrompt path ++ " [Enter/Esc] ",
          statusLine (editPrompt path) "fail: string not found"] ∧
      (runTool env w "edit_file" args).world.fs = w.fs ∧
      ReadFile (runTool env w "edit_file" args).world.fs path = Except.ok content) ∧
    (strings.OccursTwice oldStr.data content.data →
      (args.get "replace_all").boolOrZero = false →
      (runTool env w "edit_file" args).ret = some ("", true) ∧
      (runTool env w "edit_file" args).world.out =
        w.out ++ [editPrompt path ++ " [Enter/Esc] ",
          statusLine (editPrompt path)
            (ambiguousStatus (strings.Count content.data oldStr.data))] ∧
      (runTool env w "edit_file" args).world.fs = w.fs ∧
      ReadFile (runTool env w "edit_file" args).world.fs path = Except.ok content) := by
  have hk' : ¬ (readKey w.term).1 = 27 := hk
  constructor
  · intro hnot
    have hc := (strings.Count_eq_zero_iff content.data oldStr.data).mpr hnot
    simp [runTool, runEdit, asString_of_eq hp, asString_of_eq ho, asString_of_eq hn, hk', getch,
      World.print, hr, hc]
  · intro htwo hra
    have hc := (strings.two_le_Count_iff content.data oldStr.data).mpr htwo
    have hc0 : strings.Count content.data oldStr.data ≠ 0 := by omega
    have hc1 : 1 < strings.Count content.data oldStr.data := by omega
    simp [runTool, runEdit, asString_of_eq hp, asString_of_eq ho, asString_of_eq hn, hk', getch,
      World.print, hr, hc0, hc1, hra]

/-- C6 as amended, at a concrete input: "aaa" occurs twice in "aaa bbb aaa", so the edit
confirmed with Enter fails and the file reads as before. -/
theorem failing_edit_leaves_file_witness :
    (runTool demoEnv (demoWorld [TermEvent.key 13]) "edit_file" (demoDecode "edit")).ret =
      some ("", true) ∧
    ReadFile (runTool demoEnv (demoWorld [TermEvent.key 13]) "edit_file"
      (demoDecode "edit")).world.fs "notes.txt" = Except.ok "aaa bbb aaa" :=
  ⟨((failing_edit_leaves_file demoEnv (demoWorld [TermEvent.key 13]) (demoDecode "edit")
      "notes.txt" "aaa" "c" "aaa bbb aaa" rfl rfl rfl (by decide) rfl).2
      ⟨[], " bbb ".data, [], rfl, Or.inl (by decide)⟩ rfl).1,
    ((failing_edit_leaves_file demoEnv (demoWorld [TermEvent.key 13]) (demoDecode "edit")
      "notes.txt" "aaa" "c" "aaa bbb aaa" rfl rfl rfl (by decide) rfl).2
      ⟨[], " bbb ".data, [], rfl, Or.inl (by decide)⟩ rfl).2.2.2⟩

/-- The variants of `runTool` return unless an asserted argument is not a string. -/
theorem runRead_ret (w : World) (args : Args) :
    (runRead w args).ret = none ↔ (args.get "path").asString = none := by
  unfold runRead
  cases (args.get "path").asString with
  | none => simp
  | some path =>
    simp only
    split <;> simp

/-- The write_file variant returns unless an asserted argument is not a string. -/
theorem runWrite_ret (w : World) (args : Args) :
    (runWrite w args).ret = none ↔
      ((args.get "path").asString = none ∨ (args.get "content").asString = none) := by
  unfold runWrite
  cases (args.get "path").asString with
  | none => simp
  | some path =>
    cases (args.get "content").asString with
    | none => simp
    | some content =>
      simp only
      split <;> simp

/-- The edit_file variant returns unless an asserted argument is not a string. -/
theorem runEdit_ret (w : World) (args : Args) :
    (runEdit w args).ret = none ↔
      ((args.get "path").asString = none ∨ (args.get "old_string").asString = none ∨
        (args.get "new_string").asString = none) := by
  unfold runEdit
  cases (args.get "path").asString with
  | none => simp
  | some path =>
    cases (args.get "old_string").asString with
    | none => simp
    | some oldStr =>
      cases (args.get "new_string").asString with
      | none => simp
      | some newStr =>
        simp only
        split
        · simp
        · split
          · simp
          · split
            · simp
            · split <;> simp

/-- The shell variant returns unless the asserted argument is not a string. -/
theorem runShell_ret (env : Env) (w : World) (args : Args) :
    (runShell env w args).ret = none ↔ (args.get "command").asString = none := by
  unfold runShell
  cases (args.get "command").asString with
  | none => simp
  | some cmd =>
    simp only
    split <;> simp

/-- `runTool` panics exactly on the argument maps that lack a string under a
key its variant asserts. -/
theorem runTool_panics_iff (env : Env) (w : World) (name : String) (args : Args) :
    (runTool env w name args).ret = none ↔ ¬ WellTyped name args := by
  unfold runTool WellTyped required
  by_cases h0 : name = "read_file"
  · simp [h0, runRead_ret]
  · by_cases h1 : name = "write_file"
    · simp [h1, runWrite_ret]
      tauto
    · by_cases h2 : name = "edit_file"
      · simp [h2, runEdit_ret]
        tauto
      · simp [h0, h1, h2, runShell_ret]

/-- C9, the code at the failing input.  `runTool` panics exactly on the
argument maps that lack a string under a key its variant asserts; a read_file
call whose payload decodes to a map without "path" panics, and `main` ends
crashed on a reply that carries this call, before the tool message is appended
and with no further request. -/
theorem missing_argument_panics :
    (∀ (env : Env) (w : World) (name : String) (args : Args),
      (runTool env w name args).ret = none ↔ ¬ WellTyped name args) ∧
    (∀ (env : Env) (w : World) (name : String), (runTool env w name []).ret = none) ∧
    (runTool demoEnv (demoWorld []) "read_file" (demoDecode "\x7b\x7d")).ret = none ∧
    (main demoEnv "sys" ["hi", "more"]
      [Reply.msg (demoReply [demoCall "c1" "read_file" "\x7b\x7d"]), Reply.msg (demoAnswer "done")]
      (demoWorld [])).crashed = true ∧
    (main demoEnv "sys" ["hi", "more"]
      [Reply.msg (demoReply [demoCall "c1" "read_file" "\x7b\x7d"]), Reply.msg (demoAnswer "done")]
      (demoWorld [])).requests = [[systemMessage "sys", userMessage "hi"]] := by
  refine ⟨runTool_panics_iff, ?_, by decide, by decide, by decide⟩
  intro env w name
  rw [runTool_panics_iff]
  intro h
  unfold WellTyped required at h
  by_cases h0 : name = "read_file"
  · simp [h0, Args.get, Any.asString] at h
  · by_cases h1 : name = "write_file"
    · simp [h1, Args.get, Any.asString] at h
      exact (h "path").1 rfl
    · by_cases h2 : name = "edit_file"
      · simp [h2, Args.get, Any.asString] at h
        exact (h "path").1 rfl
      · simp [h0, h1, h2, Args.get, Any.asString] at h

/-- C7, the code at the failing input.  The file "locked.txt" can be read but
not written.  The confirmed edit of "a" into "b" returns the result
"replaced 1 occurrence(s)" and prints the status "ok", yet the write has failed
and the file still reads "a". -/
theorem edit_reports_unwritten_replacement :
    (runTool demoEnv (demoWorld [TermEvent.key 13]) "edit_file" (demoDecode "edit-locked")).ret =
      some ("replaced 1 occurrence(s)", true) ∧
    (runTool demoEnv (demoWorld [TermEvent.key 13]) "edit_file"
      (demoDecode "edit-locked")).world.out =
      [editPrompt "locked.txt" ++ " [Enter/Esc] ", statusLine (editPrompt "locked.txt") "ok"] ∧
    (WriteFile demoFiles "locked.txt" "b").1 = some (pathError "locked.txt" "permission denied") ∧
    ReadFile (runTool demoEnv (demoWorld [TermEvent.key 13]) "edit_file"
      (demoDecode "edit-locked")).world.fs "locked.txt" = Except.ok "a" := by
  refine ⟨by decide, by decide, by decide, rfl⟩

/-- What C7 says does hold when the write succeeds.  For every confirmed
edit_file call on a readable file in which old_string occurs, with replace_all
set or old_string not occurring twice: if the write of the new content
succeeds, the result is "replaced n occurrence(s)" with n the count of
`strings.Count`, and the file then reads as the old content with n
occurrences of old_string, taken left to right without overlap, replaced by
new_string. -/
theorem confirmed_edit_replaces (env : Env) (w : World) (args : Args)
    (path oldStr newStr content : String)
    (hp : args.get "path" = Any.str path) (ho : args.get "old_string" = Any.str oldStr)
    (hn : args.get "new_string" = Any.str newStr)
    (hk : (getch w).1 ≠ 0x1b) (hr : ReadFile w.fs path = Except.ok content)
    (hin : oldStr.data <:+: content.data)
    (hone : ¬ strings.OccursTwice oldStr.data content.data ∨
      (args.get "replace_all").boolOrZero = true)
    (hw : (WriteFile w.fs path
      (editedContent (args.get "replace_all").boolOrZero content oldStr newStr)).1 = none) :
    (runTool env w "edit_file" args).ret =
      some (replacedResult (strings.Count content.data oldStr.data), true) ∧
    ReadFile (runTool env w "edit_file" args).world.fs path =
      Except.ok (editedContent (args.get "replace_all").boolOrZero content oldStr newStr) ∧
    strings.Replaced oldStr.data newStr.data (strings.Count content.data oldStr.data)
      content.data
      (editedContent (args.get "replace_all").boolOrZero content oldStr newStr).data := by
  have hk' : ¬ (readKey w.term).1 = 27 := hk
  have hc0 : strings.Count content.data oldStr.data ≠ 0 := by
    rw [Ne, strings.Count_eq_zero_iff]; exact not_not.mpr hin
  have hc1 : ¬ (1 < strings.Count content.data oldStr.data ∧
      (args.get "replace_all").boolOrZero = false) := by
    rintro ⟨h, hra⟩
    rcases hone with h2 | h2
    · exact h2 ((strings.two_le_Count_iff _ _).mp h)
    · rw [hra] at h2; cases h2
  refine ⟨?_, ?_, editedContent_spec _ _ _ _ hc1 hc0⟩
  · simp [runTool, runEdit, asString_of_eq hp, asString_of_eq ho, asString_of_eq hn, hk', getch,
      World.print, hr, hc0, hc1]
  · have hfs : (runTool env w "edit_file" args).world.fs =
        (WriteFile w.fs path
          (editedContent (args.get "replace_all").boolOrZero content oldStr newStr)).2 := by
      simp [runTool, runEdit, asString_of_eq hp, asString_of_eq ho, asString_of_eq hn, hk', getch,
        World.print, hr, hc0, hc1]
    rw [hfs]
    exact ReadFile_WriteFile _ _ _ _ hr hw

/-- The successful edit at a concrete input: "bbb" becomes "c" in "aaa bbb aaa". -/
theorem confirmed_edit_replaces_witness :
    ReadFile (runTool demoEnv (demoWorld [TermEvent.key 13]) "edit_file"
      [("path", Any.str "notes.txt"), ("old_string", Any.str "bbb"),
        ("new_string", Any.str "c")]).world.fs "notes.txt" = Except.ok "aaa c aaa" :=
  (confirmed_edit_replaces demoEnv (demoWorld [TermEvent.key 13])
    [("path", Any.str "notes.txt"), ("old_string", Any.str "bbb"), ("new_string", Any.str "c")]
    "notes.txt" "bbb" "c" "aaa bbb aaa" rfl rfl rfl (by decide) rfl
    ⟨"aaa ".data, " aaa".data, rfl⟩
    (Or.inl (fun h => by
      have := (strings.two_le_Count_iff "aaa bbb aaa".data "bbb".data).mpr h
      revert this; decide))
    (by decide)).2.1

/-- C8, the claim fails.  A read_file on a missing file, and a confirmed
edit_file on a missing file, with an old_string that is not found, and with an
old_string found twice without replace_all, all return the empty string as
result text: the result does not state the failure, and the three edit
failures return the same result. -/
theorem failure_result_counterexample :
    (runTool demoEnv (demoWorld []) "read_file" [("path", Any.str "nowhere.txt")]).ret =
      some ("", true) ∧
    (runTool demoEnv (demoWorld [TermEvent.key 13]) "edit_file" (demoDecode "edit-missing")).ret =
      some ("", true) ∧
    (runTool demoEnv (demoWorld [TermEvent.key 13]) "edit_file" (demoDecode "edit-absent")).ret =
      some ("", true) ∧
    (runTool demoEnv (demoWorld [TermEvent.key 13]) "edit_file" (demoDecode "edit")).ret =
      some ("", true) := by
  refine ⟨by decide, by decide, by decide, by decide⟩

/-- C8 as amended.  For every call with a string path: a read_file on a file
that cannot be read returns ("", true); a confirmed edit_file (old_string and
new_string strings) returns ("", true) when the file cannot be read, when
old_string is not found, and when old_string occurs more than once with
replace_all unset.  The failure is stated in the status line printed on the
console only, and the three edit failures print three different statuses.  A
successful edit returns the result "replaced n occurrence(s)", which is not
empty. -/
theorem failure_result_is_empty (env : Env) (w : World) (args : Args) (path : String)
    (hp : args.get "path" = Any.str path) :
    (∀ err, ReadFile w.fs path = Except.error err →
      (runTool env w "read_file" args).ret = some ("", true) ∧
      (runTool env w "read_file" args).world.out =
        w.out ++ [readPrompt path ++ " ", statusLine (readPrompt path) ("fail: " ++ err)]) ∧
    (∀ oldStr newStr : String, args.get "old_string" = Any.str oldStr →
      args.get "new_string" = Any.str newStr → (getch w).1 ≠ 0x1b →
      (∀ err, ReadFile w.fs path = Except.error err →
        (runTool env w "edit_file" args).ret = some ("", true) ∧
        (runTool env w "edit_file" args).world.out =
          w.out ++ [editPrompt path ++ " [Enter/Esc] ",
            statusLine (editPrompt path) ("fail: " ++ err)] ∧
        "fail: " ++ err ≠ "fail: string not found" ∧
        ∀ n, "fail: " ++ err ≠ ambiguousStatus n) ∧
      (∀ content, ReadFile w.fs path = Except.ok content →
        (¬ oldStr.data <:+: content.data →
          (runTool env w "edit_file" args).ret = some ("", true) ∧
          (runTool env w "edit_file" args).world.out =
            w.out ++ [editPrompt path ++ " [Enter/Esc] ",
              statusLine (editPrompt path) "fail: string not found"]) ∧
        (strings.OccursTwice oldStr.data content.data →
          (args.get "replace_all").boolOrZero = false →
          (runTool env w "edit_file" args).ret = some ("", true) ∧
          (runTool env w "edit_file" args).world.out =
            w.out ++ [editPrompt path ++ " [Enter/Esc] ",
              statusLine (editPrompt path)
                (ambiguousStatus (strings.Count content.data oldStr.data))] ∧
          ambiguousStatus (strings.Count content.data oldStr.data) ≠ "fail: string not found") ∧
        (oldStr.data <:+: content.data →
          (¬ strings.OccursTwice oldStr.data content.data ∨
            (args.get "replace_all").boolOrZero = true) →
          (runTool env w "edit_file" args).ret =
            some (replacedResult (strings.Count content.data oldStr.data), true) ∧
          replacedResult (strings.Count content.data oldStr.data) ≠ ""))) := by
  constructor
  · intro err hr
    simp [runTool, runRead, asString_of_eq hp, World.print, hr]
  · intro oldStr newStr ho hn hk
    have hk' : ¬ (readKey w.term).1 = 27 := hk
    constructor
    · intro err hr
      obtain ⟨errno, rfl⟩ := ReadFile_error _ _ _ hr
      refine ⟨?_, ?_, (unreadableStatus_ne path errno 0).1,
        fun n => (unreadableStatus_ne path errno n).2⟩
      · simp [runTool, runEdit, asString_of_eq hp, asString_of_eq ho, asString_of_eq hn, hk',
          getch, World.print, hr]
      · simp [runTool, runEdit, asString_of_eq hp, asString_of_eq ho, asString_of_eq hn, hk',
          getch, World.print, hr]
    · intro content hr
      refine ⟨?_, ?_, ?_⟩
      · intro hnot
        have hc := (strings.Count_eq_zero_iff content.data oldStr.data).mpr hnot
        simp [runTool, runEdit, asString_of_eq hp, asString_of_eq ho, asString_of_eq hn, hk',
          getch, World.print, hr, hc]
      · intro htwo hra
        have hc := (strings.two_le_Count_iff content.data oldStr.data).mpr htwo
        have hc0 : strings.Count content.data oldStr.data ≠ 0 := by omega
        have hc1 : 1 < strings.Count content.data oldStr.data := by omega
        refine ⟨?_, ?_, ambiguousStatus_ne_notFound _⟩
        · simp [runTool, runEdit, asString_of_eq hp, asString_of_eq ho, asString_of_eq hn, hk',
            getch, World.print, hr, hc0, hc1, hra]
        · simp [runTool, runEdit, asString_of_eq hp, asString_of_eq ho, asString_of_eq hn, hk',
            getch, World.print, hr, hc0, hc1, hra]
      · intro hin hone
        have hc0 : strings.Count content.data oldStr.data ≠ 0 := by
          rw [Ne, strings.Count_eq_zero_iff]; exact not_not.mpr hin
        have hc1 : ¬ (1 < strings.Count content.data oldStr.data ∧
            (args.get "replace_all").boolOrZero = false) := by
          rintro ⟨h, hra⟩
          rcases hone with h2 | h2
          · exact h2 ((strings.two_le_Count_iff _ _).mp h)
          · rw [hra] at h2; cases h2
        refine ⟨?_, replacedResult_ne_empty _⟩
        simp [runTool, runEdit, asString_of_eq hp, asString_of_eq ho, asString_of_eq hn, hk',
          getch, World.print, hr, hc0, hc1]

/-- C8 as amended, at a concrete input: the edit of a missing file returns the
empty result and prints the failure. -/
theorem failure_result_is_empty_witness :
    (runTool demoEnv (demoWorld [TermEvent.key 13]) "edit_file" (demoDecode "edit-missing")).ret =
      some ("", true) ∧
    (runTool demoEnv (demoWorld [TermEvent.key 13]) "edit_file"
      (demoDecode "edit-missing")).world.out =
      [editPrompt "nowhere.txt" ++ " [Enter/Esc] ",
        statusLine (editPrompt "nowhere.txt")
          ("fail: " ++ pathError "nowhere.txt" "no such file or directory")] :=
  ⟨(((failure_result_is_empty demoEnv (demoWorld [TermEvent.key 13]) (demoDecode "edit-missing")
      "nowhere.txt" rfl).2 "a" "c" rfl rfl (by decide)).1 _ rfl).1,
    (((failure_result_is_empty demoEnv (demoWorld [TermEvent.key 13]) (demoDecode "edit-missing")
      "nowhere.txt" rfl).2 "a" "c" rfl rfl (by decide)).1 _ rfl).2.1⟩

/-! ## The batch of tool calls -/

/-- One result text per call that proceeded. -/
theorem Proceeds.length_eq {env : Env} {w w2 : World} {calls : List ToolCall} {rs : List String}
    (h : Proceeds env w calls rs w2) : rs.length = calls.length := by
  induction h with
  | nil => rfl
  | cons w tc tcs r rs w2 _ _ ih => simp [ih]

/-- The loop over the batch, through calls that all proceed. -/
theorem runBatch_proceeds {env : Env} {w w2 : World} {calls : List ToolCall} {rs : List String}
    (h : Proceeds env w calls rs w2) (more : List ToolCall) (msgs : List Message) :
    runBatch env (calls ++ more) msgs w =
      runBatch env more (msgs ++ List.zipWith toolMessage calls rs) w2 := by
  induction h generalizing msgs with
  | nil => simp
  | cons w tc tcs r rs w2 hret _ ih =>
    simp only [List.cons_append, runBatch, hret, if_true, List.zipWith_cons_cons,
      List.append_eq]
    rw [ih]
    simp

/-- The loop over the batch, up to the first call that is cancelled. -/
theorem runBatch_cancel {env : Env} {w w1 : World} {pre : List ToolCall} {ck : ToolCall}
    {rs : List String} {r : String} (post : List ToolCall) (hpre : Proceeds env w pre rs w1)
    (hret : (dispatch env w1 ck).ret = some (r, false)) (msgs : List Message) :
    runBatch env (pre ++ ck :: post) msgs w =
      (msgs ++ List.zipWith toolMessage pre rs, (dispatch env w1 ck).world,
        BatchEnd.cancelled) := by
  rw [runBatch_proceeds hpre]
  simp [runBatch, hret]

/-- The read_file variant leaves the trace of calls alone. -/
theorem runRead_invoked (w : World) (args : Args) : (runRead w args).world.invoked = w.invoked := by
  unfold runRead
  split
  · rfl
  · simp only [World.print]
    split <;> rfl

/-- The write_file variant leaves the trace of calls alone. -/
theorem runWrite_invoked (w : World) (args : Args) :
    (runWrite w args).world.invoked = w.invoked := by
  unfold runWrite
  split
  · rfl
  · split
    · rfl
    · simp only [World.print, getch]
      split <;> rfl

/-- The edit_file variant leaves the trace of calls alone. -/
theorem runEdit_invoked (w : World) (args : Args) : (runEdit w args).world.invoked = w.invoked := by
  unfold runEdit
  split
  · rfl
  · split
    · rfl
    · split
      · rfl
      · simp only [World.print, getch]
        split
        · rfl
        · split
          · rfl
          · split
            · rfl
            · split <;> rfl

/-- The shell variant leaves the trace of calls alone. -/
theorem runShell_invoked (env : Env) (w : World) (args : Args) :
    (runShell env w args).world.invoked = w.invoked := by
  unfold runShell
  split
  · rfl
  · simp only [World.print, getch]
    split <;> rfl

/-- Every call of `runTool` adds exactly its own entry to the trace of calls. -/
theorem runTool_invoked (env : Env) (w : World) (name : String) (args : Args) :
    (runTool env w name args).world.invoked = w.invoked ++ [(name, args)] := by
  unfold runTool
  simp only
  split
  · rw [runRead_invoked]
  · split
    · rw [runWrite_invoked]
    · split
      · rw [runEdit_invoked]
      · rw [runShell_invoked]

/-- The trace of calls after calls that all proceed. -/
theorem Proceeds.invoked {env : Env} {w w2 : World} {calls : List ToolCall} {rs : List String}
    (h : Proceeds env w calls rs w2) :
    w2.invoked = w.invoked ++ calls.map (invocation env) := by
  induction h with
  | nil => simp
  | cons w tc tcs r rs w2 _ _ ih =>
    rw [ih, dispatch, runTool_invoked]
    simp [invocation]

/-- C2.  For every state of `main` with history H and every reply carrying tool
calls c1..cn (n ≥ 1): if every call proceeds, `runTool` returning the result
text ri for ci, the round of the inner loop ends with the history exactly
H ++ [the reply with its role, content and tool calls c1..cn] ++ [t1..tn],
where ti has role "tool", tool_call_id = ci.ID and content = ri, one tool
message per call in the order of the calls; the loop then goes on to the next
request.  The tool messages are also given by position: the message at place
|H| + 1 + i is the one for the i-th call, and the history has |H| + 1 + n
messages. -/
theorem all_proceed_history (env : Env) (st : State) (msg : Message) (rs : List String)
    (w2 : World) (hne : msg.ToolCalls ≠ [])
    (hall : Proceeds env st.world msg.ToolCalls rs w2) :
    handleReply env st msg =
      ({ st with
          messages := st.messages ++
            [{ Role := msg.Role, Content := msg.Content, ToolCalls := msg.ToolCalls,
               ToolCallID := "" }] ++
            List.zipWith
              (fun c r =>
                { Role := "tool", Content := Any.str r, ToolCalls := [], ToolCallID := c.ID })
              msg.ToolCalls rs,
          world := w2 }, true) ∧
    rs.length = msg.ToolCalls.length ∧
    (handleReply env st msg).1.messages.length = st.messages.length + 1 + msg.ToolCalls.length ∧
    (∀ (i : Nat) (c : ToolCall) (r : String), msg.ToolCalls[i]? = some c → rs[i]? = some r →
      ∃ t, (handleReply env st msg).1.messages[st.messages.length + 1 + i]? = some t ∧
        t.Role = "tool" ∧ t.ToolCallID = c.ID ∧ t.Content = Any.str r ∧ t.ToolCalls = []) := by
  have h := runBatch_proceeds hall [] (st.messages ++ [recorded msg])
  simp only [List.append_nil, runBatch] at h
  have hlen : msg.ToolCalls.length ≠ 0 := by
    intro h0; exact hne (List.length_eq_zero.mp h0)
  have hmain : handleReply env st msg =
      ({ st with
          messages := st.messages ++
            [{ Role := msg.Role, Content := msg.Content, ToolCalls := msg.ToolCalls,
               ToolCallID := "" }] ++
            List.zipWith
              (fun c r =>
                { Role := "tool", Content := Any.str r, ToolCalls := [], ToolCallID := c.ID })
              msg.ToolCalls rs,
          world := w2 }, true) := by
    simp only [handleReply, if_neg hlen, h]
    rfl
  refine ⟨hmain, hall.length_eq, ?_, ?_⟩
  · rw [hmain]
    simp [hall.length_eq]
    omega
  · intro i c r hc hr
    rw [hmain]
    have hi : i < msg.ToolCalls.length := (List.getElem?_eq_some.mp hc).1
    refine ⟨{ Role := "tool", Content := Any.str r, ToolCalls := [], ToolCallID := c.ID },
      ?_, rfl, rfl, rfl, rfl⟩
    simp only
    rw [List.getElem?_append_right (by simp), List.length_append, List.length_singleton,
      show st.messages.length + 1 + i - (st.messages.length + 1) = i by omega,
      List.getElem?_zipWith, hc, hr]

/-- C2 at a concrete input: a write confirmed with Enter and a read.  The
history is system, user, the reply with its two tool calls, the tool message
for c1 with the result "ok", the tool message for c2 with the content read. -/
theorem all_proceed_history_witness :
    (handleReply demoEnv (demoState [TermEvent.key 13])
      (demoReply [demoCall "c1" "write_file" "write", demoCall "c2" "read_file" "read"])).1.messages =
      [{ Role := "system", Content := Any.str "sys", ToolCalls := [], ToolCallID := "" },
        { Role := "user", Content := Any.str "list files", ToolCalls := [], ToolCallID := "" },
        { Role := "assistant", Content := Any.null,
          ToolCalls := [demoCall "c1" "write_file" "write", demoCall "c2" "read_file" "read"],
          ToolCallID := "" },
        { Role := "tool", Content := Any.str "ok", ToolCalls := [], ToolCallID := "c1" },
        { Role := "tool", Content := Any.str "aaa bbb aaa", ToolCalls := [],
          ToolCallID := "c2" }] :=
  congrArg (fun p => p.1.messages)
    (all_proceed_history demoEnv (demoState [TermEvent.key 13])
      (demoReply [demoCall "c1" "write_file" "write", demoCall "c2" "read_file" "read"])
      ["ok", "aaa bbb aaa"] _ (by decide)
      (Proceeds.cons _ _ _ _ _ _ (by decide)
        (Proceeds.cons _ _ _ _ _ _ (by decide) (Proceeds.nil _)))).1

/-- C3.  Rollback on cancellation.  For every state of `main` with history H and
every reply whose tool calls are pre ++ ck :: post, where the calls of pre
proceed and `runTool` reports cancellation for ck: the round ends with the
history exactly H (the recorded reply and the tool messages for pre are gone,
what was in H stays, the user message included), and the turn ends: the inner
loop stops without consuming a further reply. -/
theorem cancel_rolls_back (env : Env) (st : State) (msg : Message)
    (pre post : List ToolCall) (ck : ToolCall) (rs : List String) (w1 : World) (r : String)
    (more : List Reply)
    (hcalls : msg.ToolCalls = pre ++ ck :: post)
    (hpre : Proceeds env st.world pre rs w1)
    (hcancel : (dispatch env w1 ck).ret = some (r, false)) :
    (handleReply env st msg).1.messages = st.messages ∧
    (handleReply env st msg).2 = false ∧
    (converse env (Reply.msg msg :: more) st).1.messages = st.messages ∧
    (converse env (Reply.msg msg :: more) st).2 = more := by
  have hlen : msg.ToolCalls.length ≠ 0 := by simp [hcalls]
  have key : ∀ st' : State, st'.messages = st.messages → st'.world = st.world →
      (handleReply env st' msg).1.messages = st.messages ∧ (handleReply env st' msg).2 = false := by
    intro st' hm hw
    have h := runBatch_cancel post (hw ▸ hpre) hcancel (st'.messages ++ [recorded msg])
    simp only [handleReply, if_neg hlen]
    rw [hcalls, h]
    simp [hm]
  have k := key ⟨st.messages, st.world, st.requests ++ [st.messages], st.crashed⟩ rfl rfl
  refine ⟨(key st rfl rfl).1, (key st rfl rfl).2, ?_, ?_⟩
  · simp only [converse, k.2]
    simpa using k.1
  · simp only [converse, k.2]
    simp

/-- C3 at a concrete input: the write is confirmed, the shell call is cancelled,
and the history is back to system and user message. -/
theorem cancel_rolls_back_witness :
    (handleReply demoEnv (demoState [TermEvent.key 13, TermEvent.key 0x1b])
      (demoReply [demoCall "c1" "write_file" "write", demoCall "c2" "run_shell" "ls",
        demoCall "c3" "read_file" "read"])).1.messages =
      [systemMessage "sys", userMessage "list files"] :=
  (cancel_rolls_back demoEnv (demoState [TermEvent.key 13, TermEvent.key 0x1b])
    (demoReply [demoCall "c1" "write_file" "write", demoCall "c2" "run_shell" "ls",
      demoCall "c3" "read_file" "read"])
    [demoCall "c1" "write_file" "write"] [demoCall "c3" "read_file" "read"]
    (demoCall "c2" "run_shell" "ls") ["ok"] _ "" [] rfl
    (Proceeds.cons _ _ _ _ _ _ (by decide) (Proceeds.nil _)) (by decide)).1

/-- C5.  For every reply whose tool calls are pre ++ ck :: post, where the calls
of pre proceed and ck is cancelled: the world at the end of the round is the
world in which the call of ck returned, whatever post is, so nothing that a
later call would do has happened; and the trace of the calls of `runTool` has
grown by the calls of pre and ck, in the order received, and by nothing else. -/
theorem cancel_abandons_rest (env : Env) (st : State) (msg : Message)
    (pre post : List ToolCall) (ck : ToolCall) (rs : List String) (w1 : World) (r : String)
    (hcalls : msg.ToolCalls = pre ++ ck :: post)
    (hpre : Proceeds env st.world pre rs w1)
    (hcancel : (dispatch env w1 ck).ret = some (r, false)) :
    (handleReply env st msg).1.world = (dispatch env w1 ck).world ∧
    (handleReply env st msg).1.world.invoked =
      st.world.invoked ++ (pre ++ [ck]).map (invocation env) := by
  have hlen : msg.ToolCalls.length ≠ 0 := by simp [hcalls]
  have h := runBatch_cancel post hpre hcancel (st.messages ++ [recorded msg])
  have hw : (handleReply env st msg).1.world = (dispatch env w1 ck).world := by
    simp only [handleReply, if_neg hlen]
    rw [hcalls, h]
  refine ⟨hw, ?_⟩
  rw [hw, dispatch, runTool_invoked, hpre.invoked]
  simp [invocation]

/-- C5 at a concrete input: the cancelled shell call is the last call made; the
read that follows it in the batch is never made. -/
theorem cancel_abandons_rest_witness :
    (handleReply demoEnv (demoState [TermEvent.key 13, TermEvent.key 0x1b])
      (demoReply [demoCall "c1" "write_file" "write", demoCall "c2" "run_shell" "ls",
        demoCall "c3" "read_file" "read"])).1.world.invoked =
      [("write_file", demoDecode "write"), ("run_shell", demoDecode "ls")] :=
  (cancel_abandons_rest demoEnv (demoState [TermEvent.key 13, TermEvent.key 0x1b])
    (demoReply [demoCall "c1" "write_file" "write", demoCall "c2" "run_shell" "ls",
      demoCall "c3" "read_file" "read"])
    [demoCall "c1" "write_file" "write"] [demoCall "c3" "read_file" "read"]
    (demoCall "c2" "run_shell" "ls") ["ok"] _ "" rfl
    (Proceeds.cons _ _ _ _ _ _ (by decide) (Proceeds.nil _)) (by decide)).2

/-! ## The pairing invariant at every request -/

/-- Reading a history in two parts. -/
theorem pending_append (p : List String) (a b : List Message) :
    pending p (a ++ b) = (pending p a).bind (fun q => pending q b) := by
  induction a generalizing p with
  | nil => cases p <;> simp [pending]
  | cons m rest ih =>
    cases p with
    | nil =>
      simp only [List.cons_append, pending]
      split
      · rfl
      · exact ih _
    | cons id ids =>
      simp only [List.cons_append, pending]
      split
      · exact ih _
      · rfl

/-- Appending a message that is not a tool message to a paired history leaves
its tool calls to be answered. -/
theorem pending_snoc_plain {msgs : List Message} (m : Message) (h : Paired msgs)
    (hrole : m.Role ≠ "tool") :
    pending [] (msgs ++ [m]) = some (m.ToolCalls.map (·.ID)) := by
  rw [pending_append, h]
  simp [pending, hrole]

/-- Appending the tool message for the first unanswered call answers it. -/
theorem pending_snoc_tool {msgs : List Message} {tc : ToolCall} {tcs : List ToolCall}
    (r : String) (h : pending [] msgs = some ((tc :: tcs).map (·.ID))) :
    pending [] (msgs ++ [toolMessage tc r]) = some (tcs.map (·.ID)) := by
  rw [pending_append, h]
  simp [pending, toolMessage]

/-- The loop over a batch only appends to the history, and when it finishes
every call of the batch has been answered. -/
theorem runBatch_history (env : Env) (calls : List ToolCall) (msgs : List Message) (w : World) :
    (∃ ts, (runBatch env calls msgs w).1 = msgs ++ ts) ∧
    (pending [] msgs = some (calls.map (·.ID)) →
      (runBatch env calls msgs w).2.2 = BatchEnd.finished →
      Paired (runBatch env calls msgs w).1) := by
  induction calls generalizing msgs w with
  | nil => exact ⟨⟨[], by simp [runBatch]⟩, fun h _ => by simpa [runBatch, Paired] using h⟩
  | cons tc tcs ih =>
    simp only [runBatch]
    cases hret : (dispatch env w tc).ret with
    | none => exact ⟨⟨[], by simp⟩, fun _ h => by simp at h⟩
    | some p =>
      obtain ⟨r, ok⟩ := p
      cases ok with
      | false => exact ⟨⟨[], by simp⟩, fun _ h => by simp at h⟩
      | true =>
        simp only [if_true]
        obtain ⟨⟨ts, hts⟩, hp⟩ := ih (msgs ++ [toolMessage tc r]) (dispatch env w tc).world
        refine ⟨⟨toolMessage tc r :: ts, by rw [hts]; simp⟩, ?_⟩
        intro h hfin
        exact hp (pending_snoc_tool r h) hfin

/-- One round of the inner loop makes no request, keeps the pairing unless the
process panics, and goes round again only when it has not panicked. -/
theorem handleReply_paired (env : Env) (st : State) (msg : Message)
    (hp : Paired st.messages) (hrole : msg.Role ≠ "tool") (hc : st.crashed = false) :
    (handleReply env st msg).1.requests = st.requests ∧
    ((handleReply env st msg).1.crashed = false → Paired (handleReply env st msg).1.messages) ∧
    ((handleReply env st msg).2 = true → (handleReply env st msg).1.crashed = false) := by
  have hrec : pending [] (st.messages ++ [recorded msg]) = some (msg.ToolCalls.map (·.ID)) :=
    pending_snoc_plain (recorded msg) hp hrole
  unfold handleReply
  by_cases hlen : msg.ToolCalls.length = 0
  · have hnil : msg.ToolCalls = [] := List.length_eq_zero.mp hlen
    simp only [if_pos hlen]
    refine ⟨trivial, fun _ => ?_, fun h => by simp at h⟩
    simpa [Paired, hnil] using hrec
  · simp only [if_neg hlen]
    obtain ⟨⟨ts, hts⟩, hfin⟩ :=
      runBatch_history env msg.ToolCalls (st.messages ++ [recorded msg]) st.world
    rcases hb : runBatch env msg.ToolCalls (st.messages ++ [recorded msg]) st.world with
      ⟨msgs, w, e⟩
    rw [hb] at hts hfin
    cases e with
    | finished =>
      simp only
      exact ⟨trivial, fun _ => hfin hrec rfl, fun _ => hc⟩
    | cancelled =>
      simp only
      refine ⟨trivial, fun _ => ?_, fun h => by simp at h⟩
      simp only at hts
      rw [hts]
      simpa using hp
    | panicked =>
      simp only
      exact ⟨trivial, fun h => by simp at h, fun h => by simp at h⟩

/-- The replies the inner loop leaves are among the replies it was given. -/
theorem converse_replies (env : Env) (replies : List Reply) (st : State) :
    ∀ x ∈ (converse env replies st).2, x ∈ replies := by
  induction replies generalizing st with
  | nil => simp [converse]
  | cons r rs ih =>
    cases r with
    | err e =>
      simp only [converse]
      intro x hx
      exact List.mem_cons_of_mem _ hx
    | msg m =>
      simp only [converse]
      split
      · intro x hx
        exact List.mem_cons_of_mem _ (ih _ x hx)
      · intro x hx
        exact List.mem_cons_of_mem _ hx

/-- The inner loop keeps the pairing at every request it makes. -/
theorem converse_paired (env : Env) (replies : List Reply) (st : State)
    (hroles : ∀ m, Reply.msg m ∈ replies → m.Role ≠ "tool")
    (hp : Paired st.messages) (hc : st.crashed = false)
    (hreq : ∀ req ∈ st.requests, Paired req) :
    (∀ req ∈ (converse env replies st).1.requests, Paired req) ∧
    ((converse env replies st).1.crashed = false →
      Paired (converse env replies st).1.messages) := by
  induction replies generalizing st with
  | nil =>
    simp only [converse]
    refine ⟨?_, fun _ => hp⟩
    intro req hreq'
    rcases List.mem_append.mp hreq' with h | h
    · exact hreq req h
    · simp at h; subst h; exact hp
  | cons r rs ih =>
    have hreq2 : ∀ req ∈ st.requests ++ [st.messages], Paired req := by
      intro req hreq'
      rcases List.mem_append.mp hreq' with h | h
      · exact hreq req h
      · simp at h; subst h; exact hp
    cases r with
    | err e =>
      simp only [converse]
      exact ⟨hreq2, fun _ => hp⟩
    | msg m =>
      have hrole := hroles m (List.mem_cons_self _ _)
      obtain ⟨h1, h2, h3⟩ := handleReply_paired env
        ⟨st.messages, st.world, st.requests ++ [st.messages], st.crashed⟩ m hp hrole hc
      simp only [converse]
      split
      · rename_i hagain
        have hc' := h3 hagain
        refine ih _ (fun m' hm' => hroles m' (List.mem_cons_of_mem _ hm')) (h2 hc') hc' ?_
        rw [h1]; exact hreq2
      · refine ⟨?_, h2⟩
        rw [h1]; exact hreq2

/-- The outer loop keeps the pairing at every request it makes. -/
theorem mainLoop_paired (env : Env) (lines : List String) (replies : List Reply) (st : State)
    (hroles : ∀ m, Reply.msg m ∈ replies → m.Role ≠ "tool")
    (hp : Paired st.messages) (hc : st.crashed = false)
    (hreq : ∀ req ∈ st.requests, Paired req) :
    ∀ req ∈ (mainLoop env lines replies st).requests, Paired req := by
  induction lines generalizing replies st with
  | nil => simpa [mainLoop] using hreq
  | cons input rest ih =>
    simp only [mainLoop]
    split
    · exact ih replies _ hroles hp hc hreq
    · have hu : Paired (st.messages ++ [userMessage input]) := by
        have := pending_snoc_plain (userMessage input) hp (by simp [userMessage])
        simpa [Paired, userMessage] using this
      obtain ⟨h1, h2⟩ := converse_paired env replies
        ⟨st.messages ++ [userMessage input], st.world.print "> ", st.requests, st.crashed⟩
        hroles hu hc hreq
      split
      · exact h1
      · rename_i hcr
        have hcr' : (converse env replies
            ⟨st.messages ++ [userMessage input], st.world.print "> ", st.requests,
              st.crashed⟩).1.crashed = false := by
          simpa using hcr
        refine ih _ _ ?_ (h2 hcr') hcr' h1
        intro m hm
        exact hroles m (converse_replies env replies _ _ hm)

/-- Tool messages that answer the calls are read off against the ids. -/
theorem pending_answers (calls : List ToolCall) (ts rest : List Message)
    (h : Answers calls ts) :
    pending (calls.map (·.ID)) (ts ++ rest) = pending [] rest := by
  induction h with
  | nil => simp
  | cons hct _ ih =>
    obtain ⟨h1, h2, h3⟩ := hct
    simp only [List.map_cons, List.cons_append, pending, h1, h2, h3, and_self, if_true]
    exact ih

/-- A history made of blocks passes the check. -/
theorem paired_of_wellPaired (msgs : List Message) (h : WellPaired msgs) : Paired msgs := by
  induction h with
  | nil => simp [Paired, pending]
  | block m ts rest hrole hans _ ih =>
    simp only [Paired, pending, if_neg hrole]
    rw [pending_answers _ _ _ hans]
    exact ih

/-- A history that is read to the end with the given calls answered first and no
call left splits into the answers and a history made of blocks. -/
theorem wellPaired_of_pending (msgs : List Message) :
    ∀ calls : List ToolCall, pending (calls.map (·.ID)) msgs = some [] →
      ∃ ts rest, msgs = ts ++ rest ∧ Answers calls ts ∧ WellPaired rest := by
  induction msgs with
  | nil =>
    intro calls h
    cases calls with
    | nil => exact ⟨[], [], rfl, List.Forall₂.nil, WellPaired.nil⟩
    | cons c cs => simp [pending] at h
  | cons m tl ih =>
    intro calls h
    cases calls with
    | nil =>
      simp only [List.map_nil, pending] at h
      split at h
      · cases h
      · rename_i hrole
        obtain ⟨ts, rest, e, hans, hw⟩ := ih m.ToolCalls h
        exact ⟨[], m :: tl, rfl, List.Forall₂.nil, e ▸ WellPaired.block m ts rest hrole hans hw⟩
    | cons c cs =>
      simp only [List.map_cons, pending] at h
      split at h
      · rename_i hm
        obtain ⟨ts, rest, e, hans, hw⟩ := ih cs h
        exact ⟨m :: ts, rest, by simp [e], List.Forall₂.cons hm hans, hw⟩
      · cases h

/-- The check `Paired` decides the pairing invariant `WellPaired`. -/
theorem wellPaired_iff (msgs : List Message) : WellPaired msgs ↔ Paired msgs := by
  constructor
  · exact paired_of_wellPaired msgs
  · intro h
    obtain ⟨ts, rest, e, hans, hw⟩ := wellPaired_of_pending msgs [] h
    cases hans
    simpa [e] using hw

/-- The j-th call is answered by the j-th message. -/
theorem Answers.getElem {calls : List ToolCall} {ts : List Message} (h : Answers calls ts) :
    ∀ (j : Nat) (c : ToolCall), calls[j]? = some c →
      ∃ t, ts[j]? = some t ∧ t.Role = "tool" ∧ t.ToolCallID = c.ID := by
  unfold Answers at h
  induction h with
  | nil => intro j c hc; simp at hc
  | cons hct _ ih =>
    intro j c hc
    cases j with
    | zero =>
      simp at hc
      subst hc
      exact ⟨_, by simp, hct.1, hct.2.1⟩
    | succ j =>
      simp at hc
      obtain ⟨t, ht, hr⟩ := ih j c hc
      exact ⟨t, by simpa using ht, hr⟩

/-- Every answer is a tool message without tool calls of its own. -/
theorem Answers.tool {calls : List ToolCall} {ts : List Message} (h : Answers calls ts) :
    ∀ (k : Nat) (t : Message), ts[k]? = some t → t.Role = "tool" ∧ t.ToolCalls = [] := by
  unfold Answers at h
  induction h with
  | nil => intro k t ht; simp at ht
  | cons hct _ ih =>
    intro k t ht
    cases k with
    | zero =>
      simp at ht
      subst ht
      exact ⟨hct.1, hct.2.2⟩
    | succ k =>
      simp at ht
      exact ih k t ht

/-- A paired history does not start with a tool message. -/
theorem WellPaired.head {msgs : List Message} (h : WellPaired msgs) :
    ∀ t, msgs[0]? = some t → t.Role ≠ "tool" := by
  cases h with
  | nil => intro t ht; simp at ht
  | block m ts rest hrole _ _ =>
    intro t ht
    simp at ht
    subst ht
    exact hrole

/-- A history made of blocks satisfies the pairing invariant read by position. -/
theorem WellPaired.indexed {msgs : List Message} (h : WellPaired msgs) :
    PairingInvariant msgs := by
  unfold PairingInvariant
  induction h with
  | nil => exact ⟨fun i m hm => by simp at hm, fun k t ht => by simp at ht⟩
  | block m ts rest hrole hans hrest ih =>
    have hlen : m.ToolCalls.length = ts.length := List.Forall₂.length_eq hans
    obtain ⟨iha, ihb⟩ := ih
    constructor
    · intro i m' hm' hne
      cases i with
      | zero =>
        simp at hm'
        subst hm'
        constructor
        · intro j c hc
          obtain ⟨t, ht, hr⟩ := hans.getElem j c hc
          have hj : j < ts.length := (List.getElem?_eq_some.mp ht).1
          refine ⟨t, ?_, hr⟩
          rw [show 0 + 1 + j = j + 1 by omega, List.getElem?_cons_succ,
            List.getElem?_append_left hj]
          exact ht
        · intro t ht
          rw [show 0 + 1 + m.ToolCalls.length = ts.length + 1 by omega,
            List.getElem?_cons_succ, List.getElem?_append_right (le_refl _)] at ht
          simp only [Nat.sub_self] at ht
          exact hrest.head t ht
      | succ i =>
        rw [List.getElem?_cons_succ] at hm'
        by_cases hi : i < ts.length
        · rw [List.getElem?_append_left hi] at hm'
          exact absurd (hans.tool i m' hm').2 hne
        · have hi' : ts.length ≤ i := by omega
          rw [List.getElem?_append_right hi'] at hm'
          obtain ⟨h1, h2⟩ := iha (i - ts.length) m' hm' hne
          constructor
          · intro j c hc
            obtain ⟨t, ht, hr⟩ := h1 j c hc
            refine ⟨t, ?_, hr⟩
            rw [show i + 1 + 1 + j = (i + 1 + j) + 1 by omega, List.getElem?_cons_succ,
              List.getElem?_append_right (by omega)]
            rw [show i + 1 + j - ts.length = i - ts.length + 1 + j by omega]
            exact ht
          · intro t ht
            rw [show i + 1 + 1 + m'.ToolCalls.length = (i + 1 + m'.ToolCalls.length) + 1 by omega,
              List.getElem?_cons_succ, List.getElem?_append_right (by omega)] at ht
            rw [show i + 1 + m'.ToolCalls.length - ts.length =
              i - ts.length + 1 + m'.ToolCalls.length by omega] at ht
            exact h2 t ht
    · intro k t ht hrole'
      cases k with
      | zero =>
        simp at ht
        subst ht
        exact absurd hrole' hrole
      | succ k =>
        rw [List.getElem?_cons_succ] at ht
        by_cases hk : k < ts.length
        · exact ⟨0, m, by simp, hrole, by omega, by omega⟩
        · have hk' : ts.length ≤ k := by omega
          rw [List.getElem?_append_right hk'] at ht
          obtain ⟨i, m0, hm0, hr0, hik, hki⟩ := ihb (k - ts.length) t ht hrole'
          refine ⟨i + ts.length + 1, m0, ?_, hr0, by omega, by omega⟩
          rw [List.getElem?_cons_succ, List.getElem?_append_right (by omega)]
          rw [show i + ts.length - ts.length = i by omega]
          exact hm0

/-- C1.  Pairing invariant at every request boundary.  Starting from the seeded
history [system], for every sequence of user input lines, every sequence of
replies of the completion service whose messages have the role assistant,
every decoder and shell, and every world (files, pending keypresses): every
message list handed to `chatCompletion` satisfies the pairing invariant, each
message with n tool calls being followed at once by exactly n tool messages
with the ids of those calls in order, and every tool message standing in such a
run; stated both as a sequence of blocks (`WellPaired`) and by position
(`PairingInvariant`). -/
theorem requests_paired (env : Env) (system : String) (lines : List String)
    (replies : List Reply) (w : World)
    (hroles : ∀ m, Reply.msg m ∈ replies → m.Role = "assistant") :
    ∀ req ∈ (main env system lines replies w).requests,
      WellPaired req ∧ PairingInvariant req := by
  have key : ∀ req ∈ (main env system lines replies w).requests, Paired req := by
    unfold main
    refine mainLoop_paired env lines replies _ ?_ ?_ rfl ?_
    · intro m hm h
      rw [hroles m hm] at h
      exact absurd h (by decide)
    · simp [Paired, pending, systemMessage]
    · simp
  intro req hreq
  have hw : WellPaired req := (wellPaired_iff req).mpr (key req hreq)
  exact ⟨hw, hw.indexed⟩

/-- C1 at a concrete input: a turn whose batch is cancelled at the second call,
an empty line, then a turn with a confirmed write after which the service
fails; three requests are made. -/
theorem requests_paired_witness :
    (main demoEnv "sys" ["list files", "", "write it"]
      [Reply.msg (demoReply [demoCall "c1" "read_file" "read", demoCall "c2" "run_shell" "ls"]),
        Reply.msg (demoReply [demoCall "c3" "write_file" "write"]),
        Reply.err "api error (500)",
        Reply.msg (demoAnswer "done")]
      (demoWorld [TermEvent.key 0x1b, TermEvent.key 13])).requests.length = 3 ∧
    ∀ req ∈ (main demoEnv "sys" ["list files", "", "write it"]
      [Reply.msg (demoReply [demoCall "c1" "read_file" "read", demoCall "c2" "run_shell" "ls"]),
        Reply.msg (demoReply [demoCall "c3" "write_file" "write"]),
        Reply.err "api error (500)",
        Reply.msg (demoAnswer "done")]
      (demoWorld [TermEvent.key 0x1b, TermEvent.key 13])).requests,
        WellPaired req ∧ PairingInvariant req :=
  ⟨by decide,
    requests_paired demoEnv "sys" ["list files", "", "write it"]
      [Reply.msg (demoReply [demoCall "c1" "read_file" "read", demoCall "c2" "run_shell" "ls"]),
        Reply.msg (demoReply [demoCall "c3" "write_file" "write"]),
        Reply.err "api error (500)",
        Reply.msg (demoAnswer "done")]
      (demoWorld [TermEvent.key 0x1b, TermEvent.key 13])
      (by
        intro m hm
        simp at hm
        rcases hm with rfl | rfl | rfl <;> rfl)⟩

/-- The end-to-end scenario of the specification: the user asks to list files,
the model requests a shell call, the user confirms, the shell returns a
listing, the model answers.  The history is system, user, assistant with the
tool call, tool with the result, assistant with the final text. -/
theorem end_to_end_scenario :
    (main demoEnv "sys" ["list files"]
      [Reply.msg (demoReply [demoCall "c1" "run_shell" "ls"]), Reply.msg (demoAnswer "one file")]
      (demoWorld [TermEvent.key 13])).messages =
      [{ Role := "system", Content := Any.str "sys", ToolCalls := [], ToolCallID := "" },
        { Role := "user", Content := Any.str "list files", ToolCalls := [], ToolCallID := "" },
        { Role := "assistant", Content := Any.null,
          ToolCalls := [demoCall "c1" "run_shell" "ls"], ToolCallID := "" },
        { Role := "tool", Content := Any.str "notes.txt\n", ToolCalls := [], ToolCallID := "c1" },
        { Role := "assistant", Content := Any.str "one file", ToolCalls := [],
          ToolCallID := "" }] := by
  decide

end Bono
